import Mathlib

/-!
Mandelbrot renderer: row banding, escape-time loop and colour mapping.

A shallow embedding of `mandelbrot.c` (windowed renderer, `get_mand_tex`) and
`mandelbrot_pic.c` (export renderer, `get_mand_buf`).

Conventions of the embedding.

* C `int` values are `Int`; `/` on `int` is `Int.tdiv` (truncation toward zero).
  No value the banding and the loops compute exceeds `screen_width * screen_height`,
  the number of cells the source allocates, so the embedding is exact whenever
  that product fits in an `int`.
* `double` arithmetic is kept abstract: the renderer is written over any type `α`
  that has `+ - * /`, a conversion from `int`, and a decidable `≤`; the constants
  `0.0`, `2` and `4.0` are the conversions of `0`, `2` and `4`.  Statements about
  the numerical values instantiate `α` with `ℚ` (exact arithmetic).  `get_color`,
  whose `float` values are only ever looked at numerically, is written over `ℚ`.
* `uint8_t` channels are `Nat`, reduced modulo `256` by the cast.
* The pixel buffer behind `pixel *buf` is a map from cell index to `Option pixel`;
  `none` is a cell nobody has written since `malloc`.
* `for` loops with a counter that the body does not touch are counted loops
  (`for_loop`); the escape-time `while` loop keeps its guard and runs on fuel.
* A worker thread is its start routine `calc_mandelbrot` applied to its
  `thread_data_t`; a run of the thread pool executes the workers one after another
  in some order.
* The loop of `main` in `mandelbrot.c` is a function of what one frame reads (window
  size, key tests); the entries of `values` are taken without overflow and the step
  `0.1` of the viewport bounds is the rational `1/10`.
-/

set_option autoImplicit false

/-! ## Shared by both source files -/

/-- The `pixel` struct: three `uint8_t` channels. -/
structure pixel where
  r : Nat
  g : Nat
  b : Nat
deriving DecidableEq

/-- The `color_data_t` struct: the channel caps edited in the interactive program. -/
structure color_data_t where
  r : Int
  g : Int
  b : Int
deriving DecidableEq

/-- The memory behind `pixel *buf`, indexed by cell; `none` is a cell never written. -/
abbrev Buffer : Type := Int → Option pixel

/-- The buffer `malloc` returns: no cell written yet. -/
def fresh_buf : Buffer := fun _ => none

/-- The assignment `buf[idx] = pix`. -/
def buf_write (buf : Buffer) (idx : Int) (pix : pixel) : Buffer :=
  fun k => if k = idx then some pix else buf k

/-- Loop `body i`, then `body (i+1)`, ... for `n` rounds. -/
def for_count {σ : Type} (body : Int → σ → σ) : Nat → Int → σ → σ
  | 0, _, s => s
  | n + 1, i, s => for_count body n (i + 1) (body i s)

/-- The C loop `for (int i = lo; i < hi; i++) body`, the body leaving `i` alone. -/
def for_loop {σ : Type} (lo hi : Int) (body : Int → σ → σ) (s : σ) : σ :=
  for_count body (hi - lo).toNat lo s

section arithmetic

variable {α : Type} [Add α] [Sub α] [Mul α] [Div α] [IntCast α] [LE α]
  [∀ a b : α, Decidable (a ≤ b)]

/-- The local variables of the escape-time loop. -/
structure iter_state (α : Type) where
  z_real : α
  z_imag : α
  current_iter : Int

/-- The guard of the `while` loop in `calc_mandelbrot`. -/
def escape_guard (max_iter : Int) (s : iter_state α) : Prop :=
  s.current_iter < max_iter ∧
    s.z_real * s.z_real + s.z_imag * s.z_imag ≤ ((4 : Int) : α)

instance escape_guard_decidable (max_iter : Int) (s : iter_state α) :
    Decidable (escape_guard max_iter s) := by
  unfold escape_guard
  exact inferInstance

/-- One pass through the body of the `while` loop. -/
def escape_body (real imag : α) (s : iter_state α) : iter_state α :=
  let z_real_temp := s.z_real * s.z_real - s.z_imag * s.z_imag + real
  let z_imag := ((2 : Int) : α) * s.z_imag * s.z_real + imag
  let z_real := z_real_temp
  { z_real := z_real, z_imag := z_imag, current_iter := s.current_iter + 1 }

/-- The `while` loop of `calc_mandelbrot`, on fuel. -/
def escape_loop (max_iter : Int) (real imag : α) : Nat → iter_state α → iter_state α
  | 0, s => s
  | fuel + 1, s =>
    if escape_guard max_iter s then
      escape_loop max_iter real imag fuel (escape_body real imag s)
    else s

/-- The value of `current_iter` when the `while` loop is left, from
`z_real = z_imag = 0`, `current_iter = 0`; `max_iter` rounds of fuel are enough. -/
def escape_count (max_iter : Int) (real imag : α) : Int :=
  (escape_loop max_iter real imag max_iter.toNat
    { z_real := ((0 : Int) : α), z_imag := ((0 : Int) : α), current_iter := 0 }).current_iter

/-- The `real` coordinate of column `screen_x`. -/
def pixel_real (min_x max_x : α) (screen_width screen_x : Int) : α :=
  min_x + ((max_x - min_x) / ((screen_width - 1 : Int) : α) * ((screen_x : Int) : α))

/-- The `imag` coordinate of row `screen_y`. -/
def pixel_imag (min_y max_y : α) (screen_height screen_y : Int) : α :=
  max_y - ((max_y - min_y) / ((screen_height - 1 : Int) : α) * ((screen_y : Int) : α))

end arithmetic

/-- The divisor `(double)(p->screen_width - 1)` of the `real` coordinate. -/
def real_divisor {α : Type} [IntCast α] (screen_width : Int) : α :=
  ((screen_width - 1 : Int) : α)

/-- The divisor `(double)(p->screen_height - 1)` of the `imag` coordinate. -/
def imag_divisor {α : Type} [IntCast α] (screen_height : Int) : α :=
  ((screen_height - 1 : Int) : α)

/-! ## `get_color` (the same text in both files), over exact arithmetic -/

/-- Conversion of a floating value to an integer type: the fraction is dropped. -/
def float_to_int (v : ℚ) : Int := Int.tdiv v.num (v.den : Int)

/-- The cast `(uint8_t)v`: drop the fraction, keep the low 8 bits. -/
def to_uint8 (v : ℚ) : Nat := (float_to_int v % 256).toNat

/-- The function `get_color`; `fixed_data` is `{iter, max_iter}`. -/
def get_color {γ : Type} (fixed_data : Int × Int) (_custom_data : γ) : pixel :=
  let iter := fixed_data.1
  let max_iter := fixed_data.2
  if iter ≥ max_iter then
    { r := 0, g := 0, b := 0 }
  else
    let t : ℚ := (iter : ℚ) / (max_iter : ℚ)
    { r := to_uint8 (9 * (1 - t) * t * t * t * 255),
      g := to_uint8 (15 * (1 - t) * (1 - t) * t * t * 255),
      b := to_uint8 (8.5 * (1 - t) * (1 - t) * (1 - t) * t * 255) }

/-! ## Reference notions the source is compared with -/

/-- The orbit of `0` under `z ↦ z² + c`: `z_0 = 0`, `z_{k+1} = z_k * z_k + c`. -/
def mandel_orbit {K : Type} [Zero K] [Add K] [Mul K] (c : K) : Nat → K
  | 0 => 0
  | n + 1 => mandel_orbit c n * mandel_orbit c n + c

/-- Truncation to an integer as the specification words it: the fraction is cut
off, no rounding (floor for non-negative values, ceiling for negative ones). -/
def spec_trunc (v : ℚ) : Int := if 0 ≤ v then ⌊v⌋ else ⌈v⌉

/-- The specification's `clamp_u8`: truncate, then clamp to `[0, 255]`. -/
def clamp_u8 (v : ℚ) : Int := max 0 (min 255 (spec_trunc v))

/-! ## `mandelbrot.c`: the windowed renderer -/

namespace mandelbrot

/-- The `mand_parameters_t` struct of `mandelbrot.c`. -/
structure mand_parameters_t (α γ : Type) where
  max_x : α
  min_x : α
  max_y : α
  min_y : α
  screen_width : Int
  screen_height : Int
  max_iter : Int
  custom_data : γ
  get_color_func : Int × Int → γ → pixel

/-- The `thread_data_t` struct of `mandelbrot.c`; `buf` points to the one shared
buffer, which the workers receive as state. -/
structure thread_data_t (α γ : Type) where
  p : mand_parameters_t α γ
  start_y : Int
  end_y : Int

section

variable {α γ : Type} [Add α] [Sub α] [Mul α] [Div α] [IntCast α] [LE α]
  [∀ a b : α, Decidable (a ≤ b)]

/-- The thread routine `calc_mandelbrot` of `mandelbrot.c`. -/
def calc_mandelbrot (data : thread_data_t α γ) (buf : Buffer) : Buffer :=
  let p := data.p
  for_loop 0 p.screen_width (fun screen_x buf =>
    let real := pixel_real p.min_x p.max_x p.screen_width screen_x
    for_loop data.start_y data.end_y (fun screen_y buf =>
      let imag := pixel_imag p.min_y p.max_y p.screen_height screen_y
      let current_iter := escape_count p.max_iter real imag
      let fixed_data : Int × Int := (current_iter, p.max_iter)
      let pix := p.get_color_func fixed_data p.custom_data
      buf_write buf (screen_y * p.screen_width + screen_x) pix) buf) buf

/-- The thread count `get_mand_tex` works with after its opening `if`. -/
def effective_thread_count (param : mand_parameters_t α γ) (thread_count : Int) : Int :=
  if param.screen_height < thread_count then param.screen_height else thread_count

/-- The variables the spawning loop of `get_mand_tex` updates. -/
structure spawn_state (α γ : Type) where
  curr_y : Int
  thread_data : List (thread_data_t α γ)

/-- One round of the spawning loop of `get_mand_tex`. -/
def spawn_body (param : mand_parameters_t α γ) (step_y : Int) (_i : Int)
    (st : spawn_state α γ) : spawn_state α γ :=
  let curr_param := param
  let curr_data : thread_data_t α γ :=
    { p := curr_param,
      start_y := st.curr_y,
      end_y := if st.curr_y + step_y ≤ param.screen_height then st.curr_y + step_y
               else param.screen_height }
  { curr_y := st.curr_y + step_y, thread_data := st.thread_data ++ [curr_data] }

/-- The `thread_data` array `get_mand_tex` has filled when its spawning loop ends. -/
def get_mand_tex_threads (param : mand_parameters_t α γ) (thread_count : Int) :
    List (thread_data_t α γ) :=
  let thread_count := effective_thread_count param thread_count
  let curr_y : Int := 0
  let step_y := Int.tdiv param.screen_height thread_count
  (for_loop 0 thread_count (spawn_body param step_y)
    { curr_y := curr_y, thread_data := [] }).thread_data

/-- The workers of `order` run to completion one after another on `buf`. -/
def run_threads (order : List (thread_data_t α γ)) (buf : Buffer) : Buffer :=
  order.foldl (fun b data => calc_mandelbrot data b) buf

/-- The pixel buffer `get_mand_tex` hands to the texture, the workers having run
in creation order on `mand_buf`, the block `malloc` returned. -/
def get_mand_tex (param : mand_parameters_t α γ) (thread_count : Int)
    (mand_buf : Buffer) : Buffer :=
  run_threads (get_mand_tex_threads param thread_count) mand_buf

/-- The row bands `[start_y, end_y)` of a list of workers. -/
def bands (tds : List (thread_data_t α γ)) : List (Int × Int) :=
  tds.map (fun d => (d.start_y, d.end_y))

end

/-- The start-up parameters of `main`, at a given window size. -/
def main_parameters (screen_width screen_height : Int) :
    mand_parameters_t ℚ color_data_t :=
  { max_x := 1.3, min_x := -2, max_y := 1.2, min_y := -1.2,
    screen_width := screen_width, screen_height := screen_height,
    max_iter := 400,
    custom_data := { r := 100, g := 100, b := 100 },
    get_color_func := get_color }

/-- The viewport of the specification's scenario: bounds `[-2, 1.3] × [-1.2, 1.2]`,
`80 × 40` pixels, `max_iter = 100`, coloured by `get_color`. -/
def scenario_parameters : mand_parameters_t ℚ color_data_t :=
  { main_parameters 80 40 with max_iter := 100 }

end mandelbrot

/-! ## `mandelbrot_pic.c`: the export renderer -/

namespace mandelbrot_pic

/-- The macro `THREAD_COUNT` of `mandelbrot_pic.c`. -/
def THREAD_COUNT : Int := 4000

/-- The `mand_parameters_t` struct of `mandelbrot_pic.c`. -/
structure mand_parameters_t (α γ : Type) where
  max_x : α
  min_x : α
  max_y : α
  min_y : α
  screen_width : Int
  screen_height : Int
  screen_height_stop : Int
  screen_height_start : Int
  max_iter : Int
  custom_data : γ
  get_color_func : Int × Int → γ → pixel

/-- The `thread_data_t` struct of `mandelbrot_pic.c`; `buf` points to the one
shared buffer, which the workers receive as state. -/
structure thread_data_t (α γ : Type) where
  p : mand_parameters_t α γ

section

variable {α γ : Type} [Add α] [Sub α] [Mul α] [Div α] [IntCast α] [LE α]
  [∀ a b : α, Decidable (a ≤ b)]

/-- The thread routine `calc_mandelbrot` of `mandelbrot_pic.c`. -/
def calc_mandelbrot (data : thread_data_t α γ) (buf : Buffer) : Buffer :=
  let p := data.p
  for_loop 0 p.screen_width (fun screen_x buf =>
    let real := pixel_real p.min_x p.max_x p.screen_width screen_x
    for_loop p.screen_height_start p.screen_height_stop (fun screen_y buf =>
      let imag := pixel_imag p.min_y p.max_y p.screen_height screen_y
      let current_iter := escape_count p.max_iter real imag
      let fixed_data : Int × Int := (current_iter, p.max_iter)
      let pix := p.get_color_func fixed_data p.custom_data
      buf_write buf (screen_y * p.screen_width + screen_x) pix) buf) buf

/-- The variables the spawning loop of `get_mand_buf` updates. -/
structure spawn_state (α γ : Type) where
  curr_y : Int
  thread_data : List (thread_data_t α γ)

/-- One round of the spawning loop of `get_mand_buf`, for `THREAD_COUNT = T`. -/
def spawn_body (param : mand_parameters_t α γ) (T step_y : Int) (i : Int)
    (st : spawn_state α γ) : spawn_state α γ :=
  let curr_param : mand_parameters_t α γ :=
    { param with
      screen_height_start := i * step_y,
      screen_height_stop := if i = T - 1 then param.screen_height else i * step_y + step_y }
  let curr_y := st.curr_y + step_y
  let curr_data : thread_data_t α γ := { p := curr_param }
  { curr_y := curr_y, thread_data := st.thread_data ++ [curr_data] }

/-- The `thread_data` array `get_mand_buf` has filled when its spawning loop ends,
for `THREAD_COUNT = T`. -/
def get_mand_buf_threads (param : mand_parameters_t α γ) (T : Int) :
    List (thread_data_t α γ) :=
  let curr_y : Int := 0
  let step_y := Int.tdiv param.screen_height T
  (for_loop 0 T (spawn_body param T step_y)
    { curr_y := curr_y, thread_data := [] }).thread_data

/-- The workers of `order` run to completion one after another on `buf`. -/
def run_threads (order : List (thread_data_t α γ)) (buf : Buffer) : Buffer :=
  order.foldl (fun b data => calc_mandelbrot data b) buf

/-- The row bands `[screen_height_start, screen_height_stop)` of a list of workers. -/
def bands (tds : List (thread_data_t α γ)) : List (Int × Int) :=
  tds.map (fun d => (d.p.screen_height_start, d.p.screen_height_stop))

end

/-- The parameters of `main` in `mandelbrot_pic.c`, at a given image size. -/
def main_parameters (screen_width screen_height : Int) : mand_parameters_t ℚ Unit :=
  { max_x := 1.3, min_x := -2, max_y := 1.2, min_y := -1.2,
    screen_width := screen_width, screen_height := screen_height,
    screen_height_stop := 0, screen_height_start := 0,
    max_iter := 10000,
    custom_data := (),
    get_color_func := get_color }

end mandelbrot_pic

/-! ## `main` of `mandelbrot.c`: the interactive controller -/

namespace mandelbrot

/-- The macro `THREAD_COUNT` of `mandelbrot.c`. -/
def THREAD_COUNT : Int := 50

/-- The macro `MAX_ITER_START` of `mandelbrot.c`. -/
def MAX_ITER_START : Int := 400

/-- The enumerator `ITER` of `change_state`. -/
def ITER : Fin 4 := 0

/-- The enumerator `R` of `change_state`. -/
def R : Fin 4 := 1

/-- The enumerator `G` of `change_state`. -/
def G : Fin 4 := 2

/-- The enumerator `B` of `change_state`. -/
def B : Fin 4 := 3

/-- What one pass of the `while (!WindowShouldClose())` loop reads from the window
system: the window size and, for each key the loop polls, whether its test
(`IsKeyPressed` or `IsKeyDown`) is true in this frame. -/
structure frame_input where
  screen_height : Int
  screen_width : Int
  key_left : Bool
  key_right : Bool
  key_up : Bool
  key_down : Bool
  key_z : Bool
  key_u : Bool
  key_d : Bool

/-- The variables of `main` that live across frames.  `custom_data` of
`mand_parameters` points to `color_data`; the field holds the pointee.  `mand_tex`
is the pixel buffer behind the texture, `last_call` the argument of the latest call
of `get_mand_tex`, if any. -/
structure main_state where
  screen_width : Int
  screen_height : Int
  values : Fin 4 → Int
  state : Fin 4
  mand_parameters : mand_parameters_t ℚ color_data_t
  mand_tex : Buffer
  last_call : Option (mand_parameters_t ℚ color_data_t)

/-- The state of `main` when it enters its loop. -/
def main_init : main_state :=
  { screen_width := 800,
    screen_height := 400,
    values := fun i => if i = ITER then MAX_ITER_START else 100,
    state := ITER,
    mand_parameters :=
      { max_x := 1.3, min_x := -2, max_y := 1.2, min_y := -1.2,
        screen_width := 800, screen_height := 400,
        max_iter := MAX_ITER_START,
        custom_data := { r := 100, g := 100, b := 100 },
        get_color_func := get_color },
    mand_tex := fresh_buf,
    last_call := none }

/-- The statements `if(IsKeyPressed(KEY_LEFT))` and `if(IsKeyPressed(KEY_RIGHT))`. -/
def frame_select (inp : frame_input) (s : main_state) : main_state :=
  let s := if inp.key_left then
      { s with state := ⟨(s.state.val + 3) % 4, Nat.mod_lt _ (by decide)⟩ } else s
  if inp.key_right then
    { s with state := ⟨(s.state.val + 1) % 4, Nat.mod_lt _ (by decide)⟩ } else s

/-- The statements `if(IsKeyDown(KEY_UP))` and `if(IsKeyDown(KEY_DOWN))`. -/
def frame_adjust (inp : frame_input) (s : main_state) : main_state :=
  let s := if inp.key_up then
      { s with values := Function.update s.values s.state (s.values s.state + 1) } else s
  if inp.key_down then
    let values := Function.update s.values s.state (s.values s.state - 1)
    let values := if values s.state < 0 then Function.update values s.state 0 else values
    { s with values := values }
  else s

/-- The statements `if(IsKeyPressed(KEY_Z))` and `if(IsKeyPressed(KEY_U))`. -/
def frame_zoom (inp : frame_input) (s : main_state) : main_state :=
  let s := if inp.key_z then
      { s with mand_parameters :=
          { s.mand_parameters with
            max_x := s.mand_parameters.max_x - 0.1,
            max_y := s.mand_parameters.max_y - 0.1,
            min_x := s.mand_parameters.min_x + 0.1,
            min_y := s.mand_parameters.min_y + 0.1 } } else s
  if inp.key_u then
    { s with mand_parameters :=
        { s.mand_parameters with
          max_x := s.mand_parameters.max_x + 0.1,
          max_y := s.mand_parameters.max_y + 0.1,
          min_x := s.mand_parameters.min_x - 0.1,
          min_y := s.mand_parameters.min_y - 0.1 } } else s

/-- The statement `if(IsKeyPressed(KEY_D))`: update the parameters, render. -/
def frame_draw (inp : frame_input) (s : main_state) : main_state :=
  if inp.key_d then
    let mand_parameters : mand_parameters_t ℚ color_data_t :=
      { s.mand_parameters with
        max_iter := s.values ITER,
        screen_width := s.screen_width,
        screen_height := s.screen_height,
        custom_data := { r := s.values R, g := s.values G, b := s.values B } }
    { s with
      mand_parameters := mand_parameters,
      mand_tex := get_mand_tex mand_parameters THREAD_COUNT fresh_buf,
      last_call := some mand_parameters }
  else { s with last_call := none }

/-- One pass of the `while (!WindowShouldClose())` loop of `main`; `last_call` of
the result tells whether and with what `get_mand_tex` was called in this frame. -/
def main_frame (inp : frame_input) (s : main_state) : main_state :=
  let s := { s with screen_height := inp.screen_height, screen_width := inp.screen_width }
  frame_draw inp (frame_zoom inp (frame_adjust inp (frame_select inp s)))

/-- The frames of `inputs`, one after another. -/
def main_run (inputs : List frame_input) (s : main_state) : main_state :=
  inputs.foldl (fun s inp => main_frame inp s) s

/-- A frame in which no key test is true, in a window of the start-up size;
`{ no_key with key_z := true }` is the key event `Z`, and so on. -/
def no_key : frame_input :=
  { screen_height := 400, screen_width := 800,
    key_left := false, key_right := false, key_up := false, key_down := false,
    key_z := false, key_u := false, key_d := false }

/-- What one frame adds to the zoom level: `+1` if its `Z` test is true, `-1` if its
`U` test is true (both in one frame cancel). -/
def key_zoom (inp : frame_input) : Int :=
  (if inp.key_z then 1 else 0) - (if inp.key_u then 1 else 0)

/-- The number of `Z` presses minus the number of `U` presses in `inputs`. -/
def net_zoom (inputs : List frame_input) : Int :=
  (inputs.map key_zoom).sum

/-- The viewport bounds after `z` more presses of `Z` than of `U`. -/
def zoomed (z : Int) (p : mand_parameters_t ℚ color_data_t) : Prop :=
  p.max_x = 1.3 - 0.1 * z ∧ p.min_x = -2 + 0.1 * z ∧
  p.max_y = 1.2 - 0.1 * z ∧ p.min_y = -1.2 + 0.1 * z

/-- What every frame of `main` preserves: no entry of `values` is negative, the
viewport bounds are those of some zoom level, and the colour function is `get_color`. -/
def controller_inv (s : main_state) : Prop :=
  (∀ i, 0 ≤ s.values i) ∧ (∃ z : Int, zoomed z s.mand_parameters) ∧
  s.mand_parameters.get_color_func = get_color

end mandelbrot


/-! ## Filling the buffer: what the nested loops of `calc_mandelbrot` leave behind -/

theorem idx_decomp (w x y idx : Int) (hx : 0 ≤ x) (hxw : x < w) :
    idx = y * w + x ↔ idx / w = y ∧ idx % w = x := by
  constructor
  · rintro rfl
    constructor
    · rw [add_comm, Int.add_mul_ediv_right _ _ (by omega), Int.ediv_eq_zero_of_lt hx hxw]
      simp
    · rw [add_comm, Int.add_mul_emod_self, Int.emod_eq_of_lt hx hxw]
  · rintro ⟨rfl, rfl⟩
    have := Int.ediv_add_emod idx w
    linarith [mul_comm w (idx / w)]

theorem column_loop_apply (w x : Int) (hx : 0 ≤ x) (hxw : x < w) (col : Int → pixel) :
    ∀ (n : Nat) (y0 : Int) (buf : Buffer) (idx : Int),
      for_count (fun y b => buf_write b (y * w + x) (col y)) n y0 buf idx =
        if idx % w = x ∧ y0 ≤ idx / w ∧ idx / w < y0 + n then some (col (idx / w))
        else buf idx := by
  intro n
  induction n with
  | zero =>
    intro y0 buf idx
    have : ¬ (idx % w = x ∧ y0 ≤ idx / w ∧ idx / w < y0 + ((0 : Nat) : Int)) := by
      push_cast; omega
    simp only [for_count, if_neg this]
  | succ n ih =>
    intro y0 buf idx
    simp only [for_count]
    rw [ih]
    have hd := idx_decomp w x y0 idx hx hxw
    by_cases h1 : idx % w = x ∧ y0 + 1 ≤ idx / w ∧ idx / w < y0 + 1 + (n : Int)
    · have h2 : idx % w = x ∧ y0 ≤ idx / w ∧ idx / w < y0 + ((n + 1 : Nat) : Int) := by
        push_cast; omega
      rw [if_pos h1, if_pos h2]
    · rw [if_neg h1]
      unfold buf_write
      by_cases h3 : idx = y0 * w + x
      · have h4 := hd.mp h3
        have h2 : idx % w = x ∧ y0 ≤ idx / w ∧ idx / w < y0 + ((n + 1 : Nat) : Int) := by
          push_cast; omega
        rw [if_pos h3, if_pos h2, h4.1]
      · have h2 : ¬ (idx % w = x ∧ y0 ≤ idx / w ∧ idx / w < y0 + ((n + 1 : Nat) : Int)) := by
          push_cast
          intro h5
          apply h3
          apply hd.mpr
          omega
        rw [if_neg h3, if_neg h2]

theorem grid_loop_apply (w start stop : Int) (col : Int → Int → pixel) :
    ∀ (n : Nat) (x0 : Int) (buf : Buffer) (idx : Int), 0 ≤ x0 → x0 + (n : Int) ≤ w →
      for_count (fun x b => for_loop start stop
          (fun y b => buf_write b (y * w + x) (col x y)) b) n x0 buf idx =
        if x0 ≤ idx % w ∧ idx % w < x0 + n ∧ start ≤ idx / w ∧ idx / w < stop then
          some (col (idx % w) (idx / w))
        else buf idx := by
  intro n
  induction n with
  | zero =>
    intro x0 buf idx _ _
    have : ¬ (x0 ≤ idx % w ∧ idx % w < x0 + ((0 : Nat) : Int) ∧
        start ≤ idx / w ∧ idx / w < stop) := by
      push_cast; omega
    simp only [for_count, if_neg this]
  | succ n ih =>
    intro x0 buf idx h0 hn
    push_cast at hn
    simp only [for_count]
    rw [ih (x0 + 1) _ idx (by omega) (by omega)]
    unfold for_loop
    rw [column_loop_apply w x0 (by omega) (by omega) (col x0)]
    by_cases h1 : x0 + 1 ≤ idx % w ∧ idx % w < x0 + 1 + (n : Int) ∧
        start ≤ idx / w ∧ idx / w < stop
    · have h2 : x0 ≤ idx % w ∧ idx % w < x0 + ((n + 1 : Nat) : Int) ∧
          start ≤ idx / w ∧ idx / w < stop := by
        push_cast; omega
      rw [if_pos h1, if_pos h2]
    · rw [if_neg h1]
      by_cases h3 : idx % w = x0 ∧ start ≤ idx / w ∧
          idx / w < start + (((stop - start).toNat : Nat) : Int)
      · have h2 : x0 ≤ idx % w ∧ idx % w < x0 + ((n + 1 : Nat) : Int) ∧
            start ≤ idx / w ∧ idx / w < stop := by
          push_cast; omega
        rw [if_pos h3, if_pos h2, h3.1]
      · have h2 : ¬ (x0 ≤ idx % w ∧ idx % w < x0 + ((n + 1 : Nat) : Int) ∧
            start ≤ idx / w ∧ idx / w < stop) := by
          push_cast; omega
        rw [if_neg h3, if_neg h2]

theorem paint_apply (w start stop : Int) (hw : 0 < w) (col : Int → Int → pixel)
    (buf : Buffer) (idx : Int) :
    for_loop 0 w (fun x b => for_loop start stop
        (fun y b => buf_write b (y * w + x) (col x y)) b) buf idx =
      if start ≤ idx / w ∧ idx / w < stop then some (col (idx % w) (idx / w))
      else buf idx := by
  have hg := grid_loop_apply w start stop col (w - 0).toNat 0 buf idx (by omega) (by omega)
  rw [show for_loop 0 w (fun x b => for_loop start stop
        (fun y b => buf_write b (y * w + x) (col x y)) b) buf idx
      = for_count (fun x b => for_loop start stop
          (fun y b => buf_write b (y * w + x) (col x y)) b) (w - 0).toNat 0 buf idx from rfl, hg]
  have h1 := Int.emod_nonneg idx (show w ≠ 0 by omega)
  have h2 := Int.emod_lt_of_pos idx hw
  by_cases h : start ≤ idx / w ∧ idx / w < stop
  · rw [if_pos h, if_pos (by omega)]
  · rw [if_neg h, if_neg (by omega)]

/-! ## The spawning loops: which bands the workers receive -/

namespace mandelbrot

section

variable {α γ : Type}

theorem tex_spawn_count (param : mand_parameters_t α γ) (step_y : Int) :
    ∀ (n : Nat) (i : Int) (st : spawn_state α γ),
      for_count (spawn_body param step_y) n i st =
        { curr_y := st.curr_y + n * step_y,
          thread_data := st.thread_data ++ (List.range n).map (fun k : Nat =>
            ({ p := param,
               start_y := st.curr_y + k * step_y,
               end_y := if st.curr_y + k * step_y + step_y ≤ param.screen_height then
                          st.curr_y + k * step_y + step_y
                        else param.screen_height } : thread_data_t α γ)) } := by
  intro n
  induction n with
  | zero => intro i st; simp [for_count]
  | succ n ih =>
    intro i st
    simp only [for_count]
    rw [ih]
    simp only [spawn_body, List.range_succ_eq_map, List.map_cons, List.map_map,
      List.append_assoc, List.singleton_append]
    congr 1
    · push_cast; ring
    · congr 1
      congr 1
      · simp
      · apply List.map_congr_left
        intro k _
        simp only [Function.comp, Nat.succ_eq_add_one]
        have e : st.curr_y + step_y + (k : Int) * step_y
            = st.curr_y + ((k + 1 : Nat) : Int) * step_y := by push_cast; ring
        rw [e]

/-- The workers of `get_mand_tex`, one per index below the effective thread count. -/
theorem get_mand_tex_threads_eq (param : mand_parameters_t α γ) (thread_count : Int) :
    get_mand_tex_threads param thread_count =
      (List.range (effective_thread_count param thread_count).toNat).map (fun k : Nat =>
        ({ p := param,
           start_y := k * Int.tdiv param.screen_height (effective_thread_count param thread_count),
           end_y :=
             if k * Int.tdiv param.screen_height (effective_thread_count param thread_count)
                 + Int.tdiv param.screen_height (effective_thread_count param thread_count)
                 ≤ param.screen_height then
               k * Int.tdiv param.screen_height (effective_thread_count param thread_count)
                 + Int.tdiv param.screen_height (effective_thread_count param thread_count)
             else param.screen_height } : thread_data_t α γ)) := by
  unfold get_mand_tex_threads for_loop
  simp only [tex_spawn_count, List.nil_append, Int.sub_zero, Int.zero_add]

end

end mandelbrot

namespace mandelbrot_pic

section

variable {α γ : Type}

theorem pic_spawn_count (param : mand_parameters_t α γ) (T step_y : Int) :
    ∀ (n : Nat) (i : Int) (st : spawn_state α γ),
      for_count (spawn_body param T step_y) n i st =
        { curr_y := st.curr_y + n * step_y,
          thread_data := st.thread_data ++ (List.range n).map (fun k : Nat =>
            ({ p := { param with
                 screen_height_start := (i + k) * step_y,
                 screen_height_stop :=
                   if i + k = T - 1 then param.screen_height
                   else (i + k) * step_y + step_y } } : thread_data_t α γ)) } := by
  intro n
  induction n with
  | zero => intro i st; simp [for_count]
  | succ n ih =>
    intro i st
    simp only [for_count]
    rw [ih]
    simp only [spawn_body, List.range_succ_eq_map, List.map_cons, List.map_map,
      List.append_assoc, List.singleton_append]
    congr 1
    · push_cast; ring
    · congr 1
      congr 1
      · simp
      · apply List.map_congr_left
        intro k _
        simp only [Function.comp, Nat.succ_eq_add_one]
        have e : i + 1 + (k : Int) = i + ((k + 1 : Nat) : Int) := by push_cast; ring
        rw [e]

/-- The workers of `get_mand_buf`, one per index below `T`. -/
theorem get_mand_buf_threads_eq (param : mand_parameters_t α γ) (T : Int) :
    get_mand_buf_threads param T =
      (List.range T.toNat).map (fun k : Nat =>
        ({ p := { param with
             screen_height_start := k * Int.tdiv param.screen_height T,
             screen_height_stop :=
               if (k : Int) = T - 1 then param.screen_height
               else k * Int.tdiv param.screen_height T + Int.tdiv param.screen_height T } } :
          thread_data_t α γ)) := by
  unfold get_mand_buf_threads for_loop
  simp only [pic_spawn_count, List.nil_append, Int.sub_zero, Int.zero_add]

end

end mandelbrot_pic

/-! ## Integer facts about the band boundaries -/

theorem mul_step_mono (step a b : Int) (hs : 0 ≤ step) (hab : a ≤ b) :
    a * step ≤ b * step :=
  Int.mul_le_mul_of_nonneg_right hab hs

theorem band_index_unique (step i j y : Int) (hs : 0 ≤ step)
    (hi : i * step ≤ y) (hi2 : y < i * step + step)
    (hj : j * step ≤ y) (hj2 : y < j * step + step) : i = j := by
  rcases lt_trichotomy i j with h | h | h
  · have := mul_step_mono step (i + 1) j hs (by omega)
    have e : (i + 1) * step = i * step + step := by ring
    omega
  · exact h
  · have := mul_step_mono step (j + 1) i hs (by omega)
    have e : (j + 1) * step = j * step + step := by ring
    omega

theorem tdiv_step_facts (h T : Int) (hh : 0 ≤ h) (hT : 1 ≤ T) :
    Int.tdiv h T = h / T ∧ 0 ≤ h / T ∧ T * (h / T) ≤ h ∧ h < T * (h / T) + T := by
  refine ⟨Int.tdiv_eq_ediv hh (by omega), Int.ediv_nonneg hh (by omega), ?_, ?_⟩
  · have := Int.ediv_add_emod h T
    have := Int.emod_nonneg h (show T ≠ 0 by omega)
    omega
  · have := Int.ediv_add_emod h T
    have := Int.emod_lt_of_pos h (show 0 < T by omega)
    omega

namespace mandelbrot_pic

section

variable {α γ : Type}

theorem bands_get_mand_buf (param : mand_parameters_t α γ) (T : Int) :
    bands (get_mand_buf_threads param T) =
      (List.range T.toNat).map (fun k : Nat =>
        (((k : Int) * Int.tdiv param.screen_height T,
          if (k : Int) = T - 1 then param.screen_height
          else k * Int.tdiv param.screen_height T + Int.tdiv param.screen_height T) :
          Int × Int)) := by
  rw [get_mand_buf_threads_eq]
  simp [bands, Function.comp_def]

theorem bands_getElem (param : mand_parameters_t α γ) (T : Int) (i : Nat) (b : Int × Int) :
    (bands (get_mand_buf_threads param T))[i]? = some b ↔
      (i : Int) < T ∧ b = ((i : Int) * Int.tdiv param.screen_height T,
          if (i : Int) = T - 1 then param.screen_height
          else i * Int.tdiv param.screen_height T + Int.tdiv param.screen_height T) := by
  rw [bands_get_mand_buf, List.getElem?_map]
  by_cases hi : i < T.toNat
  · rw [List.getElem?_range hi]
    simp only [Option.map_some']
    constructor
    · intro h
      exact ⟨by omega, (Option.some.inj h).symm⟩
    · rintro ⟨_, rfl⟩
      rfl
  · rw [List.getElem?_eq_none (by simpa using hi)]
    simp only [Option.map_none']
    constructor
    · intro h; cases h
    · rintro ⟨h, _⟩; omega

end

end mandelbrot_pic

theorem pic_row_in_unique_band {α γ : Type}
    (param : mandelbrot_pic.mand_parameters_t α γ) (T : Int)
    (hT : 1 ≤ T) (hh : 0 ≤ param.screen_height)
    (y : Int) (hy0 : 0 ≤ y) (hy1 : y < param.screen_height) :
    ∃! i : Nat, ∃ b, (mandelbrot_pic.bands (mandelbrot_pic.get_mand_buf_threads param T))[i]?
      = some b ∧ b.1 ≤ y ∧ y < b.2 := by
  obtain ⟨hdiv, hs0, hlo, hhi⟩ := tdiv_step_facts param.screen_height T hh hT
  have hlast : ((T - 1).toNat : Int) = T - 1 := by omega
  have hlastband : (mandelbrot_pic.bands
        (mandelbrot_pic.get_mand_buf_threads param T))[(T - 1).toNat]? =
        some ((T - 1) * (param.screen_height / T), param.screen_height) := by
    rw [mandelbrot_pic.bands_getElem, hdiv, hlast]
    exact ⟨by omega, by rw [if_pos rfl]⟩
  by_cases hy : (T - 1) * (param.screen_height / T) ≤ y
  · refine ⟨(T - 1).toNat, ⟨_, hlastband, hy, hy1⟩, ?_⟩
    rintro j ⟨b, hb, hb1, hb2⟩
    rw [mandelbrot_pic.bands_getElem, hdiv] at hb
    obtain ⟨hjT, rfl⟩ := hb
    by_cases hj : (j : Int) = T - 1
    · omega
    · rw [if_neg hj] at hb2
      exfalso
      have := mul_step_mono (param.screen_height / T) ((j : Int) + 1) (T - 1) hs0 (by omega)
      have e : ((j : Int) + 1) * (param.screen_height / T)
          = (j : Int) * (param.screen_height / T) + param.screen_height / T := by ring
      simp only at hb2
      omega
  · have hy' : y < (T - 1) * (param.screen_height / T) := by omega
    have hspos : 0 < param.screen_height / T := by
      rcases hs0.lt_or_eq with h | h
      · exact h
      · rw [← h] at hy'; simp at hy'; omega
    have hq0 : 0 ≤ y / (param.screen_height / T) := Int.ediv_nonneg hy0 hs0
    have hq1 := Int.ediv_add_emod y (param.screen_height / T)
    have hq2 := Int.emod_nonneg y (show param.screen_height / T ≠ 0 by omega)
    have hq3 := Int.emod_lt_of_pos y hspos
    have hq4 : y / (param.screen_height / T) * (param.screen_height / T)
        = (param.screen_height / T) * (y / (param.screen_height / T)) := by ring
    have hqT : y / (param.screen_height / T) < T - 1 := by
      by_contra hcon
      have := mul_step_mono (param.screen_height / T) (T - 1)
        (y / (param.screen_height / T)) hs0 (by omega)
      omega
    have hcast : (((y / (param.screen_height / T)).toNat : Nat) : Int)
        = y / (param.screen_height / T) := by omega
    refine ⟨(y / (param.screen_height / T)).toNat,
      ⟨(y / (param.screen_height / T) * (param.screen_height / T),
        y / (param.screen_height / T) * (param.screen_height / T)
          + param.screen_height / T), ?_, ?_, ?_⟩, ?_⟩
    · rw [mandelbrot_pic.bands_getElem, hdiv, hcast]
      exact ⟨by omega, by rw [if_neg (by omega)]⟩
    · show y / (param.screen_height / T) * (param.screen_height / T) ≤ y
      omega
    · show y < y / (param.screen_height / T) * (param.screen_height / T)
          + param.screen_height / T
      omega
    · rintro j ⟨b, hb, hb1, hb2⟩
      rw [mandelbrot_pic.bands_getElem, hdiv] at hb
      obtain ⟨hjT, rfl⟩ := hb
      simp only at hb1 hb2
      by_cases hj : (j : Int) = T - 1
      · rw [hj] at hb1; omega
      · rw [if_neg hj] at hb2
        have := band_index_unique (param.screen_height / T) (j : Int)
          (y / (param.screen_height / T)) y hs0 hb1 hb2 (by omega) (by omega)
        omega

/-- C2. Export renderer `get_mand_buf` with `THREAD_COUNT = T`: for `T ≥ 1` and
`screen_height ≥ 0`, with `step = screen_height / T`, there are `T` bands; band `i`
for `i < T - 1` is `[i*step, i*step + step)`; the last band is
`[(T-1)*step, screen_height)` and so has `screen_height - step*(T-1)` rows; and
every row of `[0, screen_height)` lies in exactly one band. -/
theorem get_mand_buf_bands_partition {α γ : Type}
    (param : mandelbrot_pic.mand_parameters_t α γ) (T : Int)
    (hT : 1 ≤ T) (hh : 0 ≤ param.screen_height) :
    (mandelbrot_pic.bands (mandelbrot_pic.get_mand_buf_threads param T)).length = T.toNat ∧
    (∀ i : Nat, (i : Int) < T - 1 →
      (mandelbrot_pic.bands (mandelbrot_pic.get_mand_buf_threads param T))[i]? =
        some ((i : Int) * (param.screen_height / T),
              (i : Int) * (param.screen_height / T) + param.screen_height / T)) ∧
    (mandelbrot_pic.bands (mandelbrot_pic.get_mand_buf_threads param T))[(T - 1).toNat]? =
        some ((T - 1) * (param.screen_height / T), param.screen_height) ∧
    (∀ b, (mandelbrot_pic.bands (mandelbrot_pic.get_mand_buf_threads param T))[(T - 1).toNat]?
        = some b →
        b.1 ≤ b.2 ∧ b.2 - b.1 = param.screen_height - (param.screen_height / T) * (T - 1)) ∧
    (∀ y : Int, 0 ≤ y → y < param.screen_height →
      ∃! i : Nat, ∃ b, (mandelbrot_pic.bands (mandelbrot_pic.get_mand_buf_threads param T))[i]?
        = some b ∧ b.1 ≤ y ∧ y < b.2) := by
  obtain ⟨hdiv, hs0, hlo, hhi⟩ := tdiv_step_facts param.screen_height T hh hT
  have hlast : ((T - 1).toNat : Int) = T - 1 := by omega
  have hTm : (T - 1) * (param.screen_height / T) ≤ param.screen_height := by
    have : (T - 1) * (param.screen_height / T)
        = T * (param.screen_height / T) - param.screen_height / T := by ring
    omega
  have hlastband : (mandelbrot_pic.bands
        (mandelbrot_pic.get_mand_buf_threads param T))[(T - 1).toNat]? =
        some ((T - 1) * (param.screen_height / T), param.screen_height) := by
    rw [mandelbrot_pic.bands_getElem, hdiv, hlast]
    exact ⟨by omega, by rw [if_pos rfl]⟩
  refine ⟨?_, ?_, hlastband, ?_, ?_⟩
  · rw [mandelbrot_pic.bands_get_mand_buf]
    simp
  · intro i hi
    rw [mandelbrot_pic.bands_getElem, hdiv]
    exact ⟨by omega, by rw [if_neg (by omega)]⟩
  · intro b hb
    rw [hlastband] at hb
    cases Option.some.inj hb
    constructor
    · exact hTm
    · show param.screen_height - (T - 1) * (param.screen_height / T) = _
      ring
  · exact pic_row_in_unique_band param T hT hh

theorem get_mand_buf_bands_partition_witness :
    (mandelbrot_pic.bands (mandelbrot_pic.get_mand_buf_threads
        (mandelbrot_pic.main_parameters 2 5) 2)) = [(0, 2), (2, 5)] ∧
    ∀ y : Int, 0 ≤ y → y < 5 →
      ∃! i : Nat, ∃ b, (mandelbrot_pic.bands (mandelbrot_pic.get_mand_buf_threads
        (mandelbrot_pic.main_parameters 2 5) 2))[i]? = some b ∧ b.1 ≤ y ∧ y < b.2 :=
  ⟨by decide,
   (get_mand_buf_bands_partition (mandelbrot_pic.main_parameters 2 5) 2
      (by decide) (by decide)).2.2.2.2⟩

theorem range_map_getElem {β : Type} (f : Nat → β) (n i : Nat) (d : β) :
    ((List.range n).map f)[i]? = some d ↔ i < n ∧ d = f i := by
  rw [List.getElem?_map]
  by_cases hi : i < n
  · rw [List.getElem?_range hi]
    simp only [Option.map_some']
    constructor
    · intro h
      exact ⟨hi, (Option.some.inj h).symm⟩
    · rintro ⟨_, rfl⟩
      rfl
  · rw [List.getElem?_eq_none (by simpa using hi)]
    simp only [Option.map_none']
    constructor
    · intro h; cases h
    · rintro ⟨h, _⟩; omega

theorem cell_index_ne (w x x' y y' : Int) (hx : 0 ≤ x) (hxw : x < w)
    (hx' : 0 ≤ x') (hxw' : x' < w) (hy : y ≠ y') : y * w + x ≠ y' * w + x' := by
  intro h
  have h1 := (idx_decomp w x y (y * w + x) hx hxw).mp rfl
  have h2 := (idx_decomp w x' y' (y * w + x) hx' hxw').mp h
  exact hy (h1.1.symm.trans h2.1)

namespace mandelbrot

section

variable {α γ : Type}

theorem effective_facts (param : mand_parameters_t α γ) (thread_count : Int)
    (hh : 1 ≤ param.screen_height) (htc : 1 ≤ thread_count) :
    effective_thread_count param thread_count = min thread_count param.screen_height ∧
    1 ≤ effective_thread_count param thread_count ∧
    effective_thread_count param thread_count ≤ param.screen_height ∧
    1 ≤ Int.tdiv param.screen_height (effective_thread_count param thread_count) ∧
    effective_thread_count param thread_count
      * Int.tdiv param.screen_height (effective_thread_count param thread_count)
      ≤ param.screen_height := by
  have he : effective_thread_count param thread_count
      = min thread_count param.screen_height := by
    unfold effective_thread_count
    split_ifs with h
    · exact (min_eq_right (le_of_lt h)).symm
    · exact (min_eq_left (not_lt.mp h)).symm
  have h1 : 1 ≤ effective_thread_count param thread_count := by
    rw [he]; exact le_min htc hh
  have h2 : effective_thread_count param thread_count ≤ param.screen_height := by
    rw [he]; exact min_le_right _ _
  obtain ⟨hdiv, hs0, hlo, hhi⟩ := tdiv_step_facts param.screen_height
    (effective_thread_count param thread_count) (by omega) h1
  refine ⟨he, h1, h2, ?_, ?_⟩
  · rw [hdiv]
    by_contra hcon
    have h0 : param.screen_height / effective_thread_count param thread_count = 0 := by
      omega
    rw [h0] at hhi
    omega
  · rw [hdiv]; exact hlo

theorem tex_threads_getElem (param : mand_parameters_t α γ) (thread_count : Int)
    (hh : 1 ≤ param.screen_height) (htc : 1 ≤ thread_count) (i : Nat)
    (d : thread_data_t α γ) :
    (get_mand_tex_threads param thread_count)[i]? = some d ↔
      (i : Int) < effective_thread_count param thread_count ∧
      d = { p := param,
            start_y := i * Int.tdiv param.screen_height
              (effective_thread_count param thread_count),
            end_y := i * Int.tdiv param.screen_height
              (effective_thread_count param thread_count)
              + Int.tdiv param.screen_height (effective_thread_count param thread_count) } := by
  obtain ⟨_, h1, h2, h3, h4⟩ := effective_facts param thread_count hh htc
  rw [get_mand_tex_threads_eq, range_map_getElem]
  constructor
  · rintro ⟨hi, rfl⟩
    have hi' : (i : Int) < effective_thread_count param thread_count := by omega
    refine ⟨hi', ?_⟩
    have := mul_step_mono (Int.tdiv param.screen_height
      (effective_thread_count param thread_count)) ((i : Int) + 1)
      (effective_thread_count param thread_count) (by omega) (by omega)
    rw [if_pos (by linarith)]
  · rintro ⟨hi, rfl⟩
    refine ⟨by omega, ?_⟩
    have := mul_step_mono (Int.tdiv param.screen_height
      (effective_thread_count param thread_count)) ((i : Int) + 1)
      (effective_thread_count param thread_count) (by omega) (by omega)
    rw [if_pos (by linarith)]

end

end mandelbrot

/-- C6. Windowed renderer `get_mand_tex`: for `screen_height ≥ 1` and requested
`thread_count ≥ 1` the effective thread count is `min thread_count screen_height`,
that many workers are created, and every worker's band satisfies
`0 ≤ start_y < end_y ≤ screen_height`. -/
theorem get_mand_tex_bands_nonempty {α γ : Type}
    (param : mandelbrot.mand_parameters_t α γ) (thread_count : Int)
    (hh : 1 ≤ param.screen_height) (htc : 1 ≤ thread_count) :
    mandelbrot.effective_thread_count param thread_count
      = min thread_count param.screen_height ∧
    (mandelbrot.get_mand_tex_threads param thread_count).length
      = (min thread_count param.screen_height).toNat ∧
    ∀ d ∈ mandelbrot.get_mand_tex_threads param thread_count,
      0 ≤ d.start_y ∧ d.start_y < d.end_y ∧ d.end_y ≤ param.screen_height := by
  obtain ⟨he, h1, h2, h3, h4⟩ := mandelbrot.effective_facts param thread_count hh htc
  refine ⟨he, ?_, ?_⟩
  · rw [mandelbrot.get_mand_tex_threads_eq, he]
    simp
  · intro d hd
    obtain ⟨i, hi⟩ := List.getElem?_of_mem hd
    rw [mandelbrot.tex_threads_getElem param thread_count hh htc] at hi
    obtain ⟨hi, rfl⟩ := hi
    have hm := mul_step_mono (Int.tdiv param.screen_height
      (mandelbrot.effective_thread_count param thread_count)) ((i : Int) + 1)
      (mandelbrot.effective_thread_count param thread_count) (by omega) (by omega)
    have hn : 0 ≤ (i : Int) * Int.tdiv param.screen_height
        (mandelbrot.effective_thread_count param thread_count) :=
      Int.mul_nonneg (by omega) (by omega)
    refine ⟨hn, ?_, ?_⟩
    · dsimp only
      omega
    · dsimp only
      linarith

theorem get_mand_tex_bands_nonempty_witness :
    mandelbrot.bands (mandelbrot.get_mand_tex_threads (mandelbrot.main_parameters 2 5) 9)
      = [(0, 1), (1, 2), (2, 3), (3, 4), (4, 5)] ∧
    mandelbrot.effective_thread_count (mandelbrot.main_parameters 2 5) 9 = min 9 5 ∧
    ∀ d ∈ mandelbrot.get_mand_tex_threads (mandelbrot.main_parameters 2 5) 9,
      0 ≤ d.start_y ∧ d.start_y < d.end_y ∧ d.end_y ≤ 5 :=
  ⟨by decide,
   (get_mand_tex_bands_nonempty (mandelbrot.main_parameters 2 5) 9
      (by decide) (by decide)).1,
   (get_mand_tex_bands_nonempty (mandelbrot.main_parameters 2 5) 9
      (by decide) (by decide)).2.2⟩

namespace mandelbrot_pic

section

variable {α γ : Type}

theorem pic_threads_getElem (param : mand_parameters_t α γ) (T : Int) (i : Nat)
    (d : thread_data_t α γ) :
    (get_mand_buf_threads param T)[i]? = some d ↔
      (i : Int) < T ∧
      d = { p := { param with
              screen_height_start := i * Int.tdiv param.screen_height T,
              screen_height_stop :=
                if (i : Int) = T - 1 then param.screen_height
                else i * Int.tdiv param.screen_height T + Int.tdiv param.screen_height T } } := by
  rw [get_mand_buf_threads_eq, range_map_getElem]
  constructor
  · rintro ⟨hi, rfl⟩
    exact ⟨by omega, rfl⟩
  · rintro ⟨hi, rfl⟩
    exact ⟨by omega, rfl⟩

end

end mandelbrot_pic

theorem tex_band_before {α γ : Type} (param : mandelbrot.mand_parameters_t α γ)
    (thread_count : Int) (hh : 1 ≤ param.screen_height) (htc : 1 ≤ thread_count)
    (i j : Nat) (di dj : mandelbrot.thread_data_t α γ) (hij : i < j)
    (hi : (mandelbrot.get_mand_tex_threads param thread_count)[i]? = some di)
    (hj : (mandelbrot.get_mand_tex_threads param thread_count)[j]? = some dj)
    (y y' : Int) (hy : y < di.end_y) (hy' : dj.start_y ≤ y') : y < y' := by
  obtain ⟨_, h1, h2, h3, h4⟩ := mandelbrot.effective_facts param thread_count hh htc
  rw [mandelbrot.tex_threads_getElem param thread_count hh htc] at hi hj
  obtain ⟨_, rfl⟩ := hi
  obtain ⟨_, rfl⟩ := hj
  dsimp only at hy hy'
  have hm := mul_step_mono (Int.tdiv param.screen_height
    (mandelbrot.effective_thread_count param thread_count)) ((i : Int) + 1) (j : Int)
    (by omega) (by omega)
  linarith

theorem pic_band_before {α γ : Type} (param : mandelbrot_pic.mand_parameters_t α γ)
    (T : Int) (hh : 0 ≤ param.screen_height) (hT : 1 ≤ T)
    (i j : Nat) (di dj : mandelbrot_pic.thread_data_t α γ) (hij : i < j)
    (hi : (mandelbrot_pic.get_mand_buf_threads param T)[i]? = some di)
    (hj : (mandelbrot_pic.get_mand_buf_threads param T)[j]? = some dj)
    (y y' : Int) (hy : y < di.p.screen_height_stop) (hy' : dj.p.screen_height_start ≤ y') :
    y < y' := by
  obtain ⟨hdiv, hs0, _, _⟩ := tdiv_step_facts param.screen_height T hh hT
  rw [mandelbrot_pic.pic_threads_getElem] at hi hj
  obtain ⟨_, rfl⟩ := hi
  obtain ⟨hjT, rfl⟩ := hj
  dsimp only at hy hy'
  rw [if_neg (by omega)] at hy
  have hm := mul_step_mono (Int.tdiv param.screen_height T) ((i : Int) + 1) (j : Int)
    (by omega) (by omega)
  linarith

/-- C5. For the workers created by `get_mand_tex` (`screen_height ≥ 1`,
`thread_count ≥ 1`) and by `get_mand_buf` (`screen_height ≥ 1`, `T ≥ 1`), with
`screen_width ≥ 1`: two different workers never address the same buffer cell, that
is `y * screen_width + x ≠ y' * screen_width + x'` whenever `y` is a row of worker
`i`, `y'` a row of worker `j ≠ i`, and `x`, `x'` are columns. -/
theorem workers_write_disjoint_cells {α γ α' γ' : Type}
    (ptex : mandelbrot.mand_parameters_t α γ) (thread_count : Int)
    (ppic : mandelbrot_pic.mand_parameters_t α' γ') (T : Int)
    (hh : 1 ≤ ptex.screen_height) (htc : 1 ≤ thread_count) (_hw : 1 ≤ ptex.screen_width)
    (hh' : 1 ≤ ppic.screen_height) (hT : 1 ≤ T) (_hw' : 1 ≤ ppic.screen_width) :
    (∀ (i j : Nat) (di dj : mandelbrot.thread_data_t α γ), i ≠ j →
      (mandelbrot.get_mand_tex_threads ptex thread_count)[i]? = some di →
      (mandelbrot.get_mand_tex_threads ptex thread_count)[j]? = some dj →
      ∀ y y' x x' : Int,
        di.start_y ≤ y → y < di.end_y → dj.start_y ≤ y' → y' < dj.end_y →
        0 ≤ x → x < ptex.screen_width → 0 ≤ x' → x' < ptex.screen_width →
        y * ptex.screen_width + x ≠ y' * ptex.screen_width + x') ∧
    (∀ (i j : Nat) (di dj : mandelbrot_pic.thread_data_t α' γ'), i ≠ j →
      (mandelbrot_pic.get_mand_buf_threads ppic T)[i]? = some di →
      (mandelbrot_pic.get_mand_buf_threads ppic T)[j]? = some dj →
      ∀ y y' x x' : Int,
        di.p.screen_height_start ≤ y → y < di.p.screen_height_stop →
        dj.p.screen_height_start ≤ y' → y' < dj.p.screen_height_stop →
        0 ≤ x → x < ppic.screen_width → 0 ≤ x' → x' < ppic.screen_width →
        y * ppic.screen_width + x ≠ y' * ppic.screen_width + x') := by
  constructor
  · intro i j di dj hij hi hj y y' x x' hy1 hy2 hy1' hy2' hx hxw hx' hxw'
    apply cell_index_ne _ _ _ _ _ hx hxw hx' hxw'
    rcases Nat.lt_or_gt_of_ne hij with h | h
    · exact ne_of_lt (tex_band_before ptex thread_count hh htc i j di dj h hi hj y y' hy2 hy1')
    · exact ne_of_gt (tex_band_before ptex thread_count hh htc j i dj di h hj hi y' y hy2' hy1)
  · intro i j di dj hij hi hj y y' x x' hy1 hy2 hy1' hy2' hx hxw hx' hxw'
    apply cell_index_ne _ _ _ _ _ hx hxw hx' hxw'
    rcases Nat.lt_or_gt_of_ne hij with h | h
    · exact ne_of_lt (pic_band_before ppic T (by omega) hT i j di dj h hi hj y y' hy2 hy1')
    · exact ne_of_gt (pic_band_before ppic T (by omega) hT j i dj di h hj hi y' y hy2' hy1)

theorem workers_write_disjoint_cells_witness :
    (mandelbrot.bands (mandelbrot.get_mand_tex_threads (mandelbrot.main_parameters 2 5) 2)
      = [(0, 2), (2, 4)] ∧
     mandelbrot_pic.bands (mandelbrot_pic.get_mand_buf_threads
        (mandelbrot_pic.main_parameters 2 5) 2) = [(0, 2), (2, 5)]) ∧
    ((∀ (i j : Nat) (di dj : mandelbrot.thread_data_t ℚ color_data_t), i ≠ j →
      (mandelbrot.get_mand_tex_threads (mandelbrot.main_parameters 2 5) 2)[i]? = some di →
      (mandelbrot.get_mand_tex_threads (mandelbrot.main_parameters 2 5) 2)[j]? = some dj →
      ∀ y y' x x' : Int,
        di.start_y ≤ y → y < di.end_y → dj.start_y ≤ y' → y' < dj.end_y →
        0 ≤ x → x < 2 → 0 ≤ x' → x' < 2 → y * 2 + x ≠ y' * 2 + x') ∧
    (∀ (i j : Nat) (di dj : mandelbrot_pic.thread_data_t ℚ Unit), i ≠ j →
      (mandelbrot_pic.get_mand_buf_threads (mandelbrot_pic.main_parameters 2 5) 2)[i]?
        = some di →
      (mandelbrot_pic.get_mand_buf_threads (mandelbrot_pic.main_parameters 2 5) 2)[j]?
        = some dj →
      ∀ y y' x x' : Int,
        di.p.screen_height_start ≤ y → y < di.p.screen_height_stop →
        dj.p.screen_height_start ≤ y' → y' < dj.p.screen_height_stop →
        0 ≤ x → x < 2 → 0 ≤ x' → x' < 2 → y * 2 + x ≠ y' * 2 + x')) :=
  ⟨⟨by decide, by decide⟩,
   workers_write_disjoint_cells (mandelbrot.main_parameters 2 5) 2
     (mandelbrot_pic.main_parameters 2 5) 2
     (by decide) (by decide) (by decide) (by decide) (by decide) (by decide)⟩

/-- C1 at the input `screen_height = 5`, `thread_count = 2`: `get_mand_tex` creates
the two bands `[0, 2)` and `[2, 4)`, and row `4` lies in neither.  Likewise for the
call `main` makes (`THREAD_COUNT = 50`) once the window is `401` rows high: the bands
end at row `400`, which no worker receives. -/
theorem get_mand_tex_skips_last_row :
    (mandelbrot.bands (mandelbrot.get_mand_tex_threads (mandelbrot.main_parameters 2 5) 2)
      = [(0, 2), (2, 4)] ∧
     (0 : Int) ≤ 4 ∧ (4 : Int) < (mandelbrot.main_parameters 2 5).screen_height ∧
     ¬ ∃ b ∈ mandelbrot.bands
        (mandelbrot.get_mand_tex_threads (mandelbrot.main_parameters 2 5) 2),
      b.1 ≤ 4 ∧ 4 < b.2) ∧
    ((0 : Int) ≤ 400 ∧ (400 : Int) < (mandelbrot.main_parameters 800 401).screen_height ∧
     ¬ ∃ b ∈ mandelbrot.bands
        (mandelbrot.get_mand_tex_threads (mandelbrot.main_parameters 800 401) 50),
      b.1 ≤ 400 ∧ 400 < b.2) := by
  decide

/-! ## What a worker, and a run of all workers, leaves in the buffer -/

namespace mandelbrot

section

variable {α γ : Type} [Add α] [Sub α] [Mul α] [Div α] [IntCast α] [LE α]
  [∀ a b : α, Decidable (a ≤ b)]

theorem tex_calc_mandelbrot_apply (data : thread_data_t α γ) (hw : 0 < data.p.screen_width)
    (buf : Buffer) (idx : Int) :
    calc_mandelbrot data buf idx =
      if data.start_y ≤ idx / data.p.screen_width ∧ idx / data.p.screen_width < data.end_y then
        some (data.p.get_color_func
          (escape_count data.p.max_iter
            (pixel_real data.p.min_x data.p.max_x data.p.screen_width
              (idx % data.p.screen_width))
            (pixel_imag data.p.min_y data.p.max_y data.p.screen_height
              (idx / data.p.screen_width)),
           data.p.max_iter) data.p.custom_data)
      else buf idx :=
  paint_apply data.p.screen_width data.start_y data.end_y hw
    (fun x y => data.p.get_color_func
      (escape_count data.p.max_iter
        (pixel_real data.p.min_x data.p.max_x data.p.screen_width x)
        (pixel_imag data.p.min_y data.p.max_y data.p.screen_height y),
       data.p.max_iter) data.p.custom_data) buf idx

theorem tex_run_threads_apply (param : mand_parameters_t α γ) (hw : 0 < param.screen_width) :
    ∀ (order : List (thread_data_t α γ)), (∀ d ∈ order, d.p = param) →
      ∀ (buf : Buffer) (idx : Int),
        run_threads order buf idx =
          if ∃ d ∈ order, d.start_y ≤ idx / param.screen_width ∧
              idx / param.screen_width < d.end_y then
            some (param.get_color_func
              (escape_count param.max_iter
                (pixel_real param.min_x param.max_x param.screen_width
                  (idx % param.screen_width))
                (pixel_imag param.min_y param.max_y param.screen_height
                  (idx / param.screen_width)),
               param.max_iter) param.custom_data)
          else buf idx := by
  intro order
  induction order with
  | nil => intro _ buf idx; simp [run_threads]
  | cons d rest ih =>
    intro hp buf idx
    have hd : d.p = param := hp d (List.mem_cons_self _ _)
    have hrest : ∀ e ∈ rest, e.p = param := fun e he => hp e (List.mem_cons_of_mem _ he)
    have hstep : run_threads (d :: rest) buf = run_threads rest (calc_mandelbrot d buf) := rfl
    rw [hstep, ih hrest, tex_calc_mandelbrot_apply d (by rw [hd]; exact hw), hd]
    by_cases h1 : ∃ e ∈ rest, e.start_y ≤ idx / param.screen_width ∧
        idx / param.screen_width < e.end_y
    · have h2 : ∃ e ∈ d :: rest, e.start_y ≤ idx / param.screen_width ∧
          idx / param.screen_width < e.end_y := by
        obtain ⟨e, he, hb⟩ := h1
        exact ⟨e, List.mem_cons_of_mem _ he, hb⟩
      rw [if_pos h1, if_pos h2]
    · rw [if_neg h1]
      by_cases h3 : d.start_y ≤ idx / param.screen_width ∧ idx / param.screen_width < d.end_y
      · rw [if_pos h3, if_pos ⟨d, List.mem_cons_self _ _, h3⟩]
      · have h2 : ¬ ∃ e ∈ d :: rest, e.start_y ≤ idx / param.screen_width ∧
            idx / param.screen_width < e.end_y := by
          rintro ⟨e, he, hb⟩
          rcases List.mem_cons.mp he with rfl | he
          · exact h3 hb
          · exact h1 ⟨e, he, hb⟩
        rw [if_neg h3, if_neg h2]

end

theorem tex_threads_params {α γ : Type} (param : mand_parameters_t α γ) (thread_count : Int) :
    ∀ d ∈ get_mand_tex_threads param thread_count, d.p = param := by
  intro d hd
  rw [get_mand_tex_threads_eq] at hd
  obtain ⟨k, _, rfl⟩ := List.mem_map.mp hd
  rfl

end mandelbrot

namespace mandelbrot_pic

section

variable {α γ : Type} [Add α] [Sub α] [Mul α] [Div α] [IntCast α] [LE α]
  [∀ a b : α, Decidable (a ≤ b)]

end

end mandelbrot_pic

/-- Whatever the thread count, a cell of the buffer `get_mand_tex` produces either
holds the colour of its pixel or still has its initial content. -/
theorem get_mand_tex_cell_value {α γ : Type} [Add α] [Sub α] [Mul α] [Div α]
    [IntCast α] [LE α] [∀ a b : α, Decidable (a ≤ b)]
    (param : mandelbrot.mand_parameters_t α γ) (thread_count : Int)
    (hw : 1 ≤ param.screen_width) (mand_buf : Buffer) (idx : Int) :
    mandelbrot.get_mand_tex param thread_count mand_buf idx =
        some (param.get_color_func
          (escape_count param.max_iter
            (pixel_real param.min_x param.max_x param.screen_width
              (idx % param.screen_width))
            (pixel_imag param.min_y param.max_y param.screen_height
              (idx / param.screen_width)),
           param.max_iter) param.custom_data) ∨
    mandelbrot.get_mand_tex param thread_count mand_buf idx = mand_buf idx := by
  unfold mandelbrot.get_mand_tex
  rw [mandelbrot.tex_run_threads_apply param (by omega) _
    (mandelbrot.tex_threads_params param thread_count)]
  split_ifs
  · exact Or.inl rfl
  · exact Or.inr rfl

/-- C4 at the input `screen_width = 2`, `screen_height = 5`: started on the same
unwritten buffer, `get_mand_tex` with `thread_count = 1` writes cell `8` (pixel
`(0, 4)`), and with `thread_count = 2` leaves that cell unwritten. -/
theorem get_mand_tex_buffer_depends_on_thread_count :
    mandelbrot.get_mand_tex (mandelbrot.main_parameters 2 5) 1 fresh_buf 8 ≠ none ∧
    mandelbrot.get_mand_tex (mandelbrot.main_parameters 2 5) 2 fresh_buf 8 = none ∧
    mandelbrot.get_mand_tex (mandelbrot.main_parameters 2 5) 1 fresh_buf
      ≠ mandelbrot.get_mand_tex (mandelbrot.main_parameters 2 5) 2 fresh_buf := by
  have h1 : mandelbrot.get_mand_tex (mandelbrot.main_parameters 2 5) 1 fresh_buf 8 ≠ none := by
    unfold mandelbrot.get_mand_tex
    rw [mandelbrot.tex_run_threads_apply (mandelbrot.main_parameters 2 5) (by decide) _
      (mandelbrot.tex_threads_params _ _), if_pos (by decide)]
    exact Option.some_ne_none _
  have h2 : mandelbrot.get_mand_tex (mandelbrot.main_parameters 2 5) 2 fresh_buf 8 = none := by
    unfold mandelbrot.get_mand_tex
    rw [mandelbrot.tex_run_threads_apply (mandelbrot.main_parameters 2 5) (by decide) _
      (mandelbrot.tex_threads_params _ _), if_neg (by decide)]
    rfl
  refine ⟨h1, h2, ?_⟩
  intro h
  rw [h] at h1
  exact h1 h2

/-! ## The escape-time loop -/

/-- The loop on `fuel` rounds stops after some `k ≤ fuel` passes through its body:
the guard held before each of them, and fails after them unless the fuel is spent. -/
theorem escape_loop_passes {α : Type} [Add α] [Sub α] [Mul α] [IntCast α] [LE α]
    [∀ a b : α, Decidable (a ≤ b)] (max_iter : Int) (real imag : α) :
    ∀ (fuel : Nat) (s : iter_state α), ∃ k : Nat, k ≤ fuel ∧
      escape_loop max_iter real imag fuel s = (escape_body real imag)^[k] s ∧
      (∀ j : Nat, j < k → escape_guard max_iter ((escape_body real imag)^[j] s)) ∧
      (k < fuel → ¬ escape_guard max_iter ((escape_body real imag)^[k] s)) := by
  intro fuel
  induction fuel with
  | zero =>
    intro s
    exact ⟨0, le_refl _, rfl, fun j hj => absurd hj (Nat.not_lt_zero j),
      fun h => absurd h (Nat.lt_irrefl 0)⟩
  | succ fuel ih =>
    intro s
    by_cases hg : escape_guard max_iter s
    · obtain ⟨k, hk, hres, hbefore, hafter⟩ := ih (escape_body real imag s)
      refine ⟨k + 1, by omega, ?_, ?_, ?_⟩
      · simp only [escape_loop, if_pos hg, hres, Function.iterate_succ_apply]
      · intro j hj
        cases j with
        | zero => exact hg
        | succ j =>
          rw [Function.iterate_succ_apply]
          exact hbefore j (by omega)
      · intro hlt
        rw [Function.iterate_succ_apply]
        exact hafter (by omega)
    · refine ⟨0, by omega, ?_, fun j hj => absurd hj (Nat.not_lt_zero j), fun _ => hg⟩
      simp only [escape_loop, if_neg hg, Function.iterate_zero, id_eq]

theorem escape_body_iter_count {α : Type} [Add α] [Sub α] [Mul α] [IntCast α]
    (real imag : α) (s : iter_state α) :
    ∀ k : Nat, ((escape_body real imag)^[k] s).current_iter = s.current_iter + k := by
  intro k
  induction k with
  | zero => simp
  | succ k ih =>
    rw [Function.iterate_succ_apply']
    show ((escape_body real imag)^[k] s).current_iter + 1 = _
    rw [ih]
    push_cast
    ring

/-- Once the guard fails at the state the loop returns, more fuel changes nothing. -/
theorem escape_loop_stable {α : Type} [Add α] [Sub α] [Mul α] [IntCast α] [LE α]
    [∀ a b : α, Decidable (a ≤ b)] (max_iter : Int) (real imag : α) :
    ∀ (fuel : Nat) (s : iter_state α) (more : Nat),
      ¬ escape_guard max_iter (escape_loop max_iter real imag fuel s) →
      escape_loop max_iter real imag (fuel + more) s = escape_loop max_iter real imag fuel s := by
  intro fuel
  induction fuel with
  | zero =>
    intro s more hg
    cases more with
    | zero => rfl
    | succ more =>
      have hs : ¬ escape_guard max_iter s := hg
      simp only [escape_loop, Nat.zero_add, if_neg hs]
  | succ fuel ih =>
    intro s more hg
    rw [Nat.add_right_comm]
    by_cases hs : escape_guard max_iter s
    · simp only [escape_loop, if_pos hs] at hg ⊢
      exact ih _ more hg
    · simp only [escape_loop, if_neg hs]

/-- With `max_iter` rounds of fuel the loop is left because its guard fails, not
because the fuel is spent. -/
theorem escape_loop_exits {α : Type} [Add α] [Sub α] [Mul α] [IntCast α] [LE α]
    [∀ a b : α, Decidable (a ≤ b)] (max_iter : Int) (real imag : α) :
    ¬ escape_guard max_iter (escape_loop max_iter real imag max_iter.toNat
      { z_real := ((0 : Int) : α), z_imag := ((0 : Int) : α), current_iter := 0 }) := by
  obtain ⟨k, hk, hres, _, hafter⟩ := escape_loop_passes max_iter real imag max_iter.toNat
    { z_real := ((0 : Int) : α), z_imag := ((0 : Int) : α), current_iter := 0 }
  rw [hres]
  rcases Nat.lt_or_ge k max_iter.toNat with h | h
  · exact hafter h
  · intro hg
    have h1 := hg.1
    rw [escape_body_iter_count] at h1
    simp only [Int.zero_add] at h1
    omega

theorem escape_orbit_complex (real imag : ℚ) :
    ∀ k : Nat,
      (⟨(((escape_body real imag)^[k]
            { z_real := ((0 : Int) : ℚ), z_imag := ((0 : Int) : ℚ), current_iter := 0 }).z_real : ℝ),
        (((escape_body real imag)^[k]
            { z_real := ((0 : Int) : ℚ), z_imag := ((0 : Int) : ℚ), current_iter := 0 }).z_imag : ℝ)⟩ : ℂ)
        = mandel_orbit (⟨(real : ℝ), (imag : ℝ)⟩ : ℂ) k := by
  intro k
  induction k with
  | zero =>
    apply Complex.ext <;> simp [mandel_orbit]
  | succ k ih =>
    rw [Function.iterate_succ_apply']
    show _ = mandel_orbit _ k * mandel_orbit _ k + _
    rw [← ih]
    apply Complex.ext
    · simp only [escape_body, Complex.add_re, Complex.mul_re]
      push_cast
      ring
    · simp only [escape_body, Complex.add_im, Complex.mul_im]
      push_cast
      ring

theorem escape_guard_complex (real imag : ℚ) (max_iter : Int) (k : Nat) :
    escape_guard max_iter ((escape_body real imag)^[k]
        { z_real := ((0 : Int) : ℚ), z_imag := ((0 : Int) : ℚ), current_iter := 0 }) ↔
      (k : Int) < max_iter ∧
        Complex.abs (mandel_orbit (⟨(real : ℝ), (imag : ℝ)⟩ : ℂ) k) ^ 2 ≤ 4 := by
  have hc : ((escape_body real imag)^[k]
      { z_real := ((0 : Int) : ℚ), z_imag := ((0 : Int) : ℚ), current_iter := 0 }).current_iter
      = (k : Int) := by
    rw [escape_body_iter_count]
    simp
  rw [← escape_orbit_complex real imag k, Complex.sq_abs, Complex.normSq_mk]
  unfold escape_guard
  rw [hc]
  generalize (escape_body real imag)^[k]
    { z_real := ((0 : Int) : ℚ), z_imag := ((0 : Int) : ℚ), current_iter := 0 } = st
  have key : st.z_real * st.z_real + st.z_imag * st.z_imag ≤ ((4 : Int) : ℚ) ↔
      (st.z_real : ℝ) * (st.z_real : ℝ) + (st.z_imag : ℝ) * (st.z_imag : ℝ) ≤ 4 := by
    constructor <;> intro h <;> exact_mod_cast h
  rw [key]

/-- C7. Escape-time loop over exact arithmetic: one pass through the loop body takes
`z` to `z² + c` as complex numbers (and adds one to `current_iter`); and for
`max_iter ≥ 0` the final `current_iter` is the least `n < max_iter` with
`|z_n|² > 4`, where `z_0 = 0`, `z_{k+1} = z_k² + c`, and is `max_iter` if there is no
such `n`. -/
theorem escape_count_is_least_escape (real imag : ℚ) (max_iter : Int) (hm : 0 ≤ max_iter) :
    (∀ s : iter_state ℚ,
      (⟨((escape_body real imag s).z_real : ℝ), ((escape_body real imag s).z_imag : ℝ)⟩ : ℂ)
        = (⟨(s.z_real : ℝ), (s.z_imag : ℝ)⟩ : ℂ) ^ 2 + (⟨(real : ℝ), (imag : ℝ)⟩ : ℂ) ∧
      (escape_body real imag s).current_iter = s.current_iter + 1) ∧
    ((∃ n : Nat, (n : Int) < max_iter ∧
        4 < Complex.abs (mandel_orbit (⟨(real : ℝ), (imag : ℝ)⟩ : ℂ) n) ^ 2) →
      ∃ k : Nat, escape_count max_iter real imag = (k : Int) ∧
        IsLeast {n : Nat | (n : Int) < max_iter ∧
          4 < Complex.abs (mandel_orbit (⟨(real : ℝ), (imag : ℝ)⟩ : ℂ) n) ^ 2} k) ∧
    ((¬ ∃ n : Nat, (n : Int) < max_iter ∧
        4 < Complex.abs (mandel_orbit (⟨(real : ℝ), (imag : ℝ)⟩ : ℂ) n) ^ 2) →
      escape_count max_iter real imag = max_iter) := by
  obtain ⟨k, hk, hres, hbefore, hafter⟩ := escape_loop_passes max_iter real imag
    max_iter.toNat
    { z_real := ((0 : Int) : ℚ), z_imag := ((0 : Int) : ℚ), current_iter := 0 }
  have hcount : escape_count max_iter real imag = (k : Int) := by
    unfold escape_count
    rw [hres, escape_body_iter_count]
    simp
  have hbefore' : ∀ j : Nat, j < k →
      ¬ 4 < Complex.abs (mandel_orbit (⟨(real : ℝ), (imag : ℝ)⟩ : ℂ) j) ^ 2 := by
    intro j hj
    exact not_lt.mpr ((escape_guard_complex real imag max_iter j).mp (hbefore j hj)).2
  have hafter' : (k : Int) < max_iter →
      4 < Complex.abs (mandel_orbit (⟨(real : ℝ), (imag : ℝ)⟩ : ℂ) k) ^ 2 := by
    intro hlt
    have hng := hafter (by omega)
    rw [escape_guard_complex] at hng
    by_contra hcon
    exact hng ⟨hlt, not_lt.mp hcon⟩
  refine ⟨?_, ?_, ?_⟩
  · intro s
    refine ⟨?_, rfl⟩
    apply Complex.ext
    · simp only [escape_body, Complex.add_re, sq, Complex.mul_re]
      push_cast
      ring
    · simp only [escape_body, Complex.add_im, sq, Complex.mul_im]
      push_cast
      ring
  · rintro ⟨n, hn, hesc⟩
    have hkn : k ≤ n := by
      by_contra hcon
      exact hbefore' n (by omega) hesc
    refine ⟨k, hcount, ⟨by omega, hafter' (by omega)⟩, ?_⟩
    rintro j ⟨_, hj⟩
    by_contra hcon
    exact hbefore' j (by omega) hj
  · intro hnone
    rw [hcount]
    by_contra hcon
    have hlt : (k : Int) < max_iter := by omega
    exact hnone ⟨k, hlt, hafter' hlt⟩

theorem escape_count_is_least_escape_witness :
    ∃ k : Nat, escape_count 5 (2 : ℚ) (2 : ℚ) = (k : Int) ∧
      IsLeast {n : Nat | (n : Int) < 5 ∧
        4 < Complex.abs (mandel_orbit
          (⟨(((2 : ℚ) : ℚ) : ℝ), (((2 : ℚ) : ℚ) : ℝ)⟩ : ℂ) n) ^ 2} k :=
  (escape_count_is_least_escape 2 2 5 (by decide)).2.1
    ⟨1, by decide, by
      rw [Complex.sq_abs]
      simp only [mandel_orbit, Complex.normSq_apply, Complex.add_re, Complex.add_im,
        Complex.mul_re, Complex.mul_im, Complex.zero_re, Complex.zero_im]
      norm_num⟩

/-! ## The pixel-to-complex mapping over exact arithmetic -/

/-- C8. Over exact arithmetic, for `screen_width ≥ 2`, `screen_height ≥ 2`,
`max_x > min_x` and `max_y > min_y`: column `0` has `real = min_x` and column
`screen_width - 1` has `real = max_x`; row `0` has `imag = max_y` and row
`screen_height - 1` has `imag = min_y`; `real` is strictly increasing in the column
and `imag` strictly decreasing in the row. -/
theorem pixel_mapping_endpoints_and_monotone (min_x max_x min_y max_y : ℚ)
    (screen_width screen_height : Int)
    (hw : 2 ≤ screen_width) (hh : 2 ≤ screen_height)
    (hx : min_x < max_x) (hy : min_y < max_y) :
    pixel_real min_x max_x screen_width 0 = min_x ∧
    pixel_real min_x max_x screen_width (screen_width - 1) = max_x ∧
    pixel_imag min_y max_y screen_height 0 = max_y ∧
    pixel_imag min_y max_y screen_height (screen_height - 1) = min_y ∧
    StrictMono (pixel_real min_x max_x screen_width) ∧
    StrictAnti (pixel_imag min_y max_y screen_height) := by
  have hw' : (0 : ℚ) < ((screen_width - 1 : Int) : ℚ) := by
    have : (0 : Int) < screen_width - 1 := by omega
    exact_mod_cast this
  have hh' : (0 : ℚ) < ((screen_height - 1 : Int) : ℚ) := by
    have : (0 : Int) < screen_height - 1 := by omega
    exact_mod_cast this
  have hsx : 0 < (max_x - min_x) / ((screen_width - 1 : Int) : ℚ) :=
    div_pos (sub_pos.mpr hx) hw'
  have hsy : 0 < (max_y - min_y) / ((screen_height - 1 : Int) : ℚ) :=
    div_pos (sub_pos.mpr hy) hh'
  refine ⟨?_, ?_, ?_, ?_, ?_, ?_⟩
  · simp [pixel_real]
  · unfold pixel_real
    rw [div_mul_cancel₀ _ (ne_of_gt hw')]
    ring
  · simp [pixel_imag]
  · unfold pixel_imag
    rw [div_mul_cancel₀ _ (ne_of_gt hh')]
    ring
  · intro a b hab
    unfold pixel_real
    have : ((a : Int) : ℚ) < ((b : Int) : ℚ) := by exact_mod_cast hab
    have := mul_lt_mul_of_pos_left this hsx
    linarith
  · intro a b hab
    unfold pixel_imag
    have : ((a : Int) : ℚ) < ((b : Int) : ℚ) := by exact_mod_cast hab
    have := mul_lt_mul_of_pos_left this hsy
    linarith

theorem pixel_mapping_endpoints_and_monotone_witness :
    pixel_real (-2 : ℚ) 1.3 80 0 = -2 ∧
    pixel_real (-2 : ℚ) 1.3 80 (80 - 1) = 1.3 ∧
    pixel_imag (-1.2 : ℚ) 1.2 40 0 = 1.2 ∧
    pixel_imag (-1.2 : ℚ) 1.2 40 (40 - 1) = -1.2 ∧
    StrictMono (pixel_real (-2 : ℚ) 1.3 80) ∧
    StrictAnti (pixel_imag (-1.2 : ℚ) 1.2 40) :=
  pixel_mapping_endpoints_and_monotone (-2) 1.3 (-1.2) 1.2 80 40
    (by decide) (by decide) (by norm_num) (by norm_num)

/-! ## `get_color` -/

theorem float_to_int_zero : float_to_int 0 = 0 := by
  simp [float_to_int]

theorem to_uint8_zero : to_uint8 0 = 0 := by
  simp [to_uint8, float_to_int_zero]

/-- C9. `get_color` returns black `(0, 0, 0)` whenever `iter ≥ max_iter` (so for
`iter = max_iter = m`, any `m`), and also for `iter = 0` with `max_iter ≥ 1`. -/
theorem get_color_black {γ : Type} (iter max_iter : Int) (custom_data : γ)
    (h : max_iter ≤ iter ∨ (iter = 0 ∧ 1 ≤ max_iter)) :
    get_color (iter, max_iter) custom_data = { r := 0, g := 0, b := 0 } := by
  rcases h with h | ⟨rfl, h⟩
  · unfold get_color
    simp only [ge_iff_le]
    rw [if_pos h]
  · unfold get_color
    simp only [ge_iff_le]
    rw [if_neg (by omega)]
    simp [to_uint8_zero]

theorem get_color_black_witness :
    get_color (7, 7) () = { r := 0, g := 0, b := 0 } ∧
    get_color (0, 100) () = { r := 0, g := 0, b := 0 } :=
  ⟨get_color_black 7 7 () (Or.inl (by decide)),
   get_color_black 0 100 () (Or.inr ⟨rfl, by decide⟩)⟩

theorem float_to_int_of_nonneg (v : ℚ) (hv : 0 ≤ v) : float_to_int v = ⌊v⌋ := by
  unfold float_to_int
  rw [Int.tdiv_eq_ediv (Rat.num_nonneg.mpr hv) (Int.natCast_nonneg _), Rat.floor_def]

theorem to_uint8_eq_clamp (v : ℚ) (h0 : 0 ≤ v) (h1 : v < 256) :
    ((to_uint8 v : Nat) : Int) = clamp_u8 v := by
  have hf0 : 0 ≤ ⌊v⌋ := Int.floor_nonneg.mpr h0
  have hf1 : ⌊v⌋ < 256 := Int.floor_lt.mpr (by exact_mod_cast h1)
  unfold to_uint8 clamp_u8 spec_trunc
  rw [float_to_int_of_nonneg v h0, if_pos h0]
  omega

theorem cubic_bound (t : ℚ) (h0 : 0 ≤ t) (h1 : t ≤ 1) :
    0 ≤ (1 - t) * t ^ 3 ∧ (1 - t) * t ^ 3 ≤ 27 / 256 := by
  constructor
  · exact mul_nonneg (by linarith) (pow_nonneg h0 3)
  · have h := mul_nonneg (sq_nonneg (t - 3 / 4))
      (show (0 : ℚ) ≤ t ^ 2 + t / 2 + 3 / 16 by positivity)
    nlinarith [h]

theorem quartic_bound (t : ℚ) (h0 : 0 ≤ t) (h1 : t ≤ 1) :
    0 ≤ (1 - t) ^ 2 * t ^ 2 ∧ (1 - t) ^ 2 * t ^ 2 ≤ 1 / 16 := by
  have ha : 0 ≤ (1 - t) * t := mul_nonneg (by linarith) h0
  have hb : (1 - t) * t ≤ 1 / 4 := by nlinarith [sq_nonneg (t - 1 / 2)]
  have e : (1 - t) ^ 2 * t ^ 2 = ((1 - t) * t) * ((1 - t) * t) := by ring
  rw [e]
  constructor
  · exact mul_nonneg ha ha
  · nlinarith [mul_le_mul hb hb ha (by norm_num : (0 : ℚ) ≤ 1 / 4)]

/-- C10. Over exact rational arithmetic, the cast `(uint8_t)` being truncation
toward zero followed by reduction to 8 bits: for `0 ≤ iter < max_iter` and
`t = iter / max_iter`, `get_color` returns `r = clamp_u8 (9·(1-t)·t³·255)`,
`g = clamp_u8 (15·(1-t)²·t²·255)`, `b = clamp_u8 (8.5·(1-t)³·t·255)`, where
`clamp_u8` truncates and then clamps to `[0, 255]`. -/
theorem get_color_eq_clamp_u8 {γ : Type} (iter max_iter : Int) (custom_data : γ)
    (h0 : 0 ≤ iter) (h1 : iter < max_iter) :
    (((get_color (iter, max_iter) custom_data).r : Nat) : Int) =
      clamp_u8 (9 * (1 - (iter : ℚ) / (max_iter : ℚ)) * ((iter : ℚ) / (max_iter : ℚ)) ^ 3
        * 255) ∧
    (((get_color (iter, max_iter) custom_data).g : Nat) : Int) =
      clamp_u8 (15 * (1 - (iter : ℚ) / (max_iter : ℚ)) ^ 2
        * ((iter : ℚ) / (max_iter : ℚ)) ^ 2 * 255) ∧
    (((get_color (iter, max_iter) custom_data).b : Nat) : Int) =
      clamp_u8 (8.5 * (1 - (iter : ℚ) / (max_iter : ℚ)) ^ 3
        * ((iter : ℚ) / (max_iter : ℚ)) * 255) := by
  have hm : (0 : ℚ) < (max_iter : ℚ) := by
    have : (0 : Int) < max_iter := by omega
    exact_mod_cast this
  have ht0 : (0 : ℚ) ≤ (iter : ℚ) / (max_iter : ℚ) :=
    div_nonneg (by exact_mod_cast h0) hm.le
  have ht1 : (iter : ℚ) / (max_iter : ℚ) ≤ 1 := by
    rw [div_le_one hm]
    exact_mod_cast h1.le
  have hcode : get_color (iter, max_iter) custom_data =
      { r := to_uint8 (9 * (1 - (iter : ℚ) / (max_iter : ℚ)) * ((iter : ℚ) / (max_iter : ℚ))
              * ((iter : ℚ) / (max_iter : ℚ)) * ((iter : ℚ) / (max_iter : ℚ)) * 255),
        g := to_uint8 (15 * (1 - (iter : ℚ) / (max_iter : ℚ))
              * (1 - (iter : ℚ) / (max_iter : ℚ)) * ((iter : ℚ) / (max_iter : ℚ))
              * ((iter : ℚ) / (max_iter : ℚ)) * 255),
        b := to_uint8 (8.5 * (1 - (iter : ℚ) / (max_iter : ℚ))
              * (1 - (iter : ℚ) / (max_iter : ℚ)) * (1 - (iter : ℚ) / (max_iter : ℚ))
              * ((iter : ℚ) / (max_iter : ℚ)) * 255) } := by
    unfold get_color
    simp only [ge_iff_le]
    rw [if_neg (by omega)]
  rw [hcode]
  dsimp only
  generalize (iter : ℚ) / (max_iter : ℚ) = t at ht0 ht1 ⊢
  obtain ⟨c0, c1⟩ := cubic_bound t ht0 ht1
  obtain ⟨d0, d1⟩ := cubic_bound (1 - t) (by linarith) (by linarith)
  obtain ⟨q0, q1⟩ := quartic_bound t ht0 ht1
  refine ⟨?_, ?_, ?_⟩
  · have e : 9 * (1 - t) * t * t * t * 255 = 9 * (1 - t) * t ^ 3 * 255 := by ring
    rw [e]
    apply to_uint8_eq_clamp <;> nlinarith
  · have e : 15 * (1 - t) * (1 - t) * t * t * 255 = 15 * (1 - t) ^ 2 * t ^ 2 * 255 := by
      ring
    rw [e]
    apply to_uint8_eq_clamp <;> nlinarith
  · have e : 8.5 * (1 - t) * (1 - t) * (1 - t) * t * 255 = 8.5 * (1 - t) ^ 3 * t * 255 := by
      ring
    have e2 : (1 - (1 - t)) * (1 - t) ^ 3 = (1 - t) ^ 3 * t := by ring
    rw [e2] at d0 d1
    rw [e]
    apply to_uint8_eq_clamp <;> norm_num <;> nlinarith

theorem get_color_eq_clamp_u8_witness :
    ((0 : Int) ≤ 3 ∧ (3 : Int) < 4) ∧
    (((get_color (3, 4) ()).r : Nat) : Int) =
      clamp_u8 (9 * (1 - ((3 : Int) : ℚ) / ((4 : Int) : ℚ)) * (((3 : Int) : ℚ) / ((4 : Int) : ℚ)) ^ 3
        * 255) :=
  ⟨by decide, (get_color_eq_clamp_u8 3 4 () (by decide) (by decide)).1⟩

/-! ## The escape count of particular points -/

/-- The escape count is `n` as soon as the orbit stays within `|z|² ≤ 4` before
step `n` and, unless `n` is `max_iter`, leaves it at step `n`. -/
theorem escape_count_eq_of_orbit (real imag : ℚ) (max_iter : Int) (n : Nat)
    (hn : (n : Int) ≤ max_iter)
    (hbefore : ∀ j : Nat, j < n →
      Complex.abs (mandel_orbit (⟨(real : ℝ), (imag : ℝ)⟩ : ℂ) j) ^ 2 ≤ 4)
    (hat : (n : Int) < max_iter →
      4 < Complex.abs (mandel_orbit (⟨(real : ℝ), (imag : ℝ)⟩ : ℂ) n) ^ 2) :
    escape_count max_iter real imag = (n : Int) := by
  obtain ⟨k, hk, hres, hb, ha⟩ := escape_loop_passes max_iter real imag max_iter.toNat
    { z_real := ((0 : Int) : ℚ), z_imag := ((0 : Int) : ℚ), current_iter := 0 }
  have hcount : escape_count max_iter real imag = (k : Int) := by
    unfold escape_count
    rw [hres, escape_body_iter_count]
    simp
  rw [hcount]
  rcases lt_trichotomy k n with h | h | h
  · exfalso
    have hng := ha (by omega)
    rw [escape_guard_complex] at hng
    exact hng ⟨by omega, hbefore k h⟩
  · rw [h]
  · exfalso
    have hg := (escape_guard_complex real imag max_iter n).mp (hb n h)
    exact absurd hg.2 (not_le.mpr (hat hg.1))

theorem mandel_orbit_zero (n : Nat) : mandel_orbit (0 : ℂ) n = 0 := by
  induction n with
  | zero => rfl
  | succ n ih => simp [mandel_orbit, ih]

/-- C11. For `c = (0, 0)` and every `max_iter ≥ 1` the escape-time loop ends with
`current_iter = max_iter`, and `get_color` of that count is `(0, 0, 0)`. -/
theorem origin_never_escapes {γ : Type} (max_iter : Int) (custom_data : γ)
    (hm : 1 ≤ max_iter) :
    escape_count max_iter (0 : ℚ) (0 : ℚ) = max_iter ∧
    get_color (escape_count max_iter (0 : ℚ) (0 : ℚ), max_iter) custom_data
      = { r := 0, g := 0, b := 0 } := by
  have hc : (⟨((0 : ℚ) : ℝ), ((0 : ℚ) : ℝ)⟩ : ℂ) = 0 := by
    apply Complex.ext <;> simp
  have h : escape_count max_iter (0 : ℚ) (0 : ℚ) = ((max_iter.toNat : Nat) : Int) := by
    apply escape_count_eq_of_orbit
    · omega
    · intro j _
      rw [hc, mandel_orbit_zero]
      simp
    · intro hlt
      omega
  have h' : escape_count max_iter (0 : ℚ) (0 : ℚ) = max_iter := by
    rw [h]; omega
  refine ⟨h', ?_⟩
  rw [h']
  unfold get_color
  simp

theorem origin_never_escapes_witness :
    escape_count 400 (0 : ℚ) (0 : ℚ) = 400 ∧
    get_color (escape_count 400 (0 : ℚ) (0 : ℚ), 400) () = { r := 0, g := 0, b := 0 } :=
  origin_never_escapes 400 () (by decide)

/-- C12. For `c = (2, 2)` and every `max_iter ≥ 2` the escape-time loop ends with
`current_iter < max_iter`: it ends with `current_iter = 1`. -/
theorem two_two_escapes (max_iter : Int) (hm : 2 ≤ max_iter) :
    escape_count max_iter (2 : ℚ) (2 : ℚ) = 1 ∧
    escape_count max_iter (2 : ℚ) (2 : ℚ) < max_iter := by
  have h : escape_count max_iter (2 : ℚ) (2 : ℚ) = ((1 : Nat) : Int) := by
    apply escape_count_eq_of_orbit
    · omega
    · intro j hj
      have hj0 : j = 0 := by omega
      subst hj0
      simp [mandel_orbit]
    · intro _
      rw [Complex.sq_abs]
      simp only [mandel_orbit, Complex.normSq_apply, Complex.add_re, Complex.add_im,
        Complex.mul_re, Complex.mul_im, Complex.zero_re, Complex.zero_im]
      norm_num
  rw [h]
  exact ⟨rfl, by omega⟩

theorem two_two_escapes_witness :
    escape_count 2 (2 : ℚ) (2 : ℚ) = 1 ∧ escape_count 2 (2 : ℚ) (2 : ℚ) < 2 :=
  two_two_escapes 2 (by decide)

theorem to_uint8_of_floor (v : ℚ) (n : Nat) (hn : n < 256) (h0 : (n : ℚ) ≤ v)
    (h1 : v < (n : ℚ) + 1) : to_uint8 v = n := by
  have hv : 0 ≤ v := le_trans (Nat.cast_nonneg n) h0
  have hf : ⌊v⌋ = (n : Int) := by
    rw [Int.floor_eq_iff]
    exact ⟨by exact_mod_cast h0, by exact_mod_cast h1⟩
  unfold to_uint8
  rw [float_to_int_of_nonneg v hv, hf]
  omega

theorem get_color_one_of_hundred {γ : Type} (custom_data : γ) :
    get_color (1, 100) custom_data = { r := 0, g := 0, b := 21 } := by
  unfold get_color
  simp only [ge_iff_le]
  rw [if_neg (by decide)]
  have hr : to_uint8 (9 * (1 - ((1 : Int) : ℚ) / ((100 : Int) : ℚ))
      * (((1 : Int) : ℚ) / ((100 : Int) : ℚ)) * (((1 : Int) : ℚ) / ((100 : Int) : ℚ))
      * (((1 : Int) : ℚ) / ((100 : Int) : ℚ)) * 255) = 0 :=
    to_uint8_of_floor _ 0 (by decide) (by norm_num) (by norm_num)
  have hg : to_uint8 (15 * (1 - ((1 : Int) : ℚ) / ((100 : Int) : ℚ))
      * (1 - ((1 : Int) : ℚ) / ((100 : Int) : ℚ))
      * (((1 : Int) : ℚ) / ((100 : Int) : ℚ)) * (((1 : Int) : ℚ) / ((100 : Int) : ℚ))
      * 255) = 0 :=
    to_uint8_of_floor _ 0 (by decide) (by norm_num) (by norm_num)
  have hb : to_uint8 (8.5 * (1 - ((1 : Int) : ℚ) / ((100 : Int) : ℚ))
      * (1 - ((1 : Int) : ℚ) / ((100 : Int) : ℚ))
      * (1 - ((1 : Int) : ℚ) / ((100 : Int) : ℚ))
      * (((1 : Int) : ℚ) / ((100 : Int) : ℚ)) * 255) = 21 :=
    to_uint8_of_floor _ 21 (by decide) (by norm_num) (by norm_num)
  rw [hr, hg, hb]

/-- C13. Scenario viewport `[-2, 1.3] × [-1.2, 1.2]`, `80 × 40` pixels,
`max_iter = 100`, exact arithmetic: pixel `(0, 0)` maps to `c = (-2, 1.2)`, its
escape count is `1` (so at most `5`), and `get_color` of that count with
`max_iter = 100` is `(0, 0, 21)`, which is not black; rendered on 8 threads, cell `0`
of the buffer holds that colour. -/
theorem scenario_top_left_escapes :
    pixel_real (-2 : ℚ) 1.3 80 0 = -2 ∧
    pixel_imag (-1.2 : ℚ) 1.2 40 0 = 1.2 ∧
    escape_count 100 (pixel_real (-2 : ℚ) 1.3 80 0) (pixel_imag (-1.2 : ℚ) 1.2 40 0) ≤ 5 ∧
    get_color (escape_count 100 (pixel_real (-2 : ℚ) 1.3 80 0)
        (pixel_imag (-1.2 : ℚ) 1.2 40 0), 100) ()
      ≠ { r := 0, g := 0, b := 0 } ∧
    mandelbrot.get_mand_tex mandelbrot.scenario_parameters 8 fresh_buf 0
      = some { r := 0, g := 0, b := 21 } := by
  have hre : pixel_real (-2 : ℚ) 1.3 80 0 = -2 := by simp [pixel_real]
  have him : pixel_imag (-1.2 : ℚ) 1.2 40 0 = 1.2 := by simp [pixel_imag]
  have hcount : escape_count 100 (-2 : ℚ) (1.2 : ℚ) = ((1 : Nat) : Int) := by
    apply escape_count_eq_of_orbit
    · decide
    · intro j hj
      have hj0 : j = 0 := by omega
      subst hj0
      simp [mandel_orbit]
    · intro _
      rw [Complex.sq_abs]
      simp only [mandel_orbit, Complex.normSq_apply, Complex.add_re, Complex.add_im,
        Complex.mul_re, Complex.mul_im, Complex.zero_re, Complex.zero_im]
      norm_num
  refine ⟨hre, him, ?_, ?_, ?_⟩
  · rw [hre, him, hcount]
    decide
  · rw [hre, him, hcount]
    show get_color (1, 100) () ≠ _
    rw [get_color_one_of_hundred]
    decide
  · unfold mandelbrot.get_mand_tex
    rw [mandelbrot.tex_run_threads_apply mandelbrot.scenario_parameters (by decide) _
      (mandelbrot.tex_threads_params _ _), if_pos (by decide)]
    show some (get_color (escape_count 100 (pixel_real (-2 : ℚ) 1.3 80 (0 % 80))
      (pixel_imag (-1.2 : ℚ) 1.2 40 (0 / 80)), 100)
      ({ r := 100, g := 100, b := 100 } : color_data_t)) = _
    rw [show (0 : Int) % 80 = 0 from rfl, show (0 : Int) / 80 = 0 from rfl, hre, him, hcount]
    show some (get_color (1, 100) ({ r := 100, g := 100, b := 100 } : color_data_t)) = _
    rw [get_color_one_of_hundred]

/-! ## Points whose orbit stays bounded -/

/-- For `|c| ≤ 1/4` the orbit of `0` under `z ↦ z² + c` never leaves `|z| ≤ 1/2`. -/
theorem mandel_orbit_bounded (c : ℂ) (hc : Complex.abs c ≤ 1 / 4) :
    ∀ n : Nat, Complex.abs (mandel_orbit c n) ≤ 1 / 2 := by
  intro n
  induction n with
  | zero => simp [mandel_orbit]
  | succ n ih =>
    have h0 : 0 ≤ Complex.abs (mandel_orbit c n) := by positivity
    have h1 : Complex.abs (mandel_orbit c n * mandel_orbit c n + c)
        ≤ Complex.abs (mandel_orbit c n) * Complex.abs (mandel_orbit c n) + Complex.abs c := by
      calc Complex.abs (mandel_orbit c n * mandel_orbit c n + c)
          ≤ Complex.abs (mandel_orbit c n * mandel_orbit c n) + Complex.abs c :=
            map_add_le_add Complex.abs _ _
        _ = Complex.abs (mandel_orbit c n) * Complex.abs (mandel_orbit c n) + Complex.abs c := by
            rw [map_mul]
    show Complex.abs (mandel_orbit c n * mandel_orbit c n + c) ≤ 1 / 2
    nlinarith [mul_le_mul ih ih h0 (by norm_num : (0 : ℝ) ≤ 1 / 2)]

theorem abs_le_quarter_of_rat (real imag : ℚ) (h : real * real + imag * imag ≤ 1 / 16) :
    Complex.abs (⟨(real : ℝ), (imag : ℝ)⟩ : ℂ) ≤ 1 / 4 := by
  have h' : ((real * real + imag * imag : ℚ) : ℝ) ≤ ((1 / 16 : ℚ) : ℝ) := Rat.cast_le.mpr h
  push_cast at h'
  have hsq : Complex.abs (⟨(real : ℝ), (imag : ℝ)⟩ : ℂ) ^ 2 ≤ (1 / 4 : ℝ) ^ 2 := by
    rw [Complex.sq_abs, Complex.normSq_mk]
    norm_num
    linarith
  exact (abs_le_of_sq_le_sq' hsq (by norm_num)).2

/-- A point with `real² + imag² ≤ 1/16` never escapes: the loop runs to `max_iter`. -/
theorem escape_count_of_small (real imag : ℚ) (max_iter : Int) (hm : 0 ≤ max_iter)
    (h : real * real + imag * imag ≤ 1 / 16) :
    escape_count max_iter real imag = max_iter := by
  have hb := mandel_orbit_bounded _ (abs_le_quarter_of_rat real imag h)
  have hc : escape_count max_iter real imag = ((max_iter.toNat : Nat) : Int) := by
    apply escape_count_eq_of_orbit
    · omega
    · intro j _
      have h0 : 0 ≤ Complex.abs (mandel_orbit (⟨(real : ℝ), (imag : ℝ)⟩ : ℂ) j) := by
        positivity
      nlinarith [hb j]
    · intro hlt
      omega
  rw [hc]
  omega

/-- C14. Scenario viewport `[-2, 1.3] × [-1.2, 1.2]`, `80 × 40` pixels,
`max_iter = 100`, exact arithmetic: the pixels `(48, 19)` and `(48, 20)` map to
`c = (-2 + 3.3·48/79, 1.2 - 2.4·19/39)` and `c = (-2 + 3.3·48/79, 1.2 - 2.4·20/39)`;
no column is nearer to `real = 0` than column `48` and no row nearer to `imag = 0`
than rows `19` and `20`; both pixels have escape count `100` and colour `(0, 0, 0)`,
and rendered on 8 threads their buffer cells hold `(0, 0, 0)`. -/
theorem scenario_centre_is_black :
    (pixel_real (-2 : ℚ) 1.3 80 48 = -2 + 3.3 * 48 / 79 ∧
     pixel_imag (-1.2 : ℚ) 1.2 40 19 = 1.2 - 2.4 * 19 / 39 ∧
     pixel_imag (-1.2 : ℚ) 1.2 40 20 = 1.2 - 2.4 * 20 / 39) ∧
    (∀ x : Int, |pixel_real (-2 : ℚ) 1.3 80 48| ≤ |pixel_real (-2 : ℚ) 1.3 80 x|) ∧
    (∀ y : Int, |pixel_imag (-1.2 : ℚ) 1.2 40 19| ≤ |pixel_imag (-1.2 : ℚ) 1.2 40 y| ∧
      |pixel_imag (-1.2 : ℚ) 1.2 40 20| ≤ |pixel_imag (-1.2 : ℚ) 1.2 40 y|) ∧
    (escape_count 100 (pixel_real (-2 : ℚ) 1.3 80 48) (pixel_imag (-1.2 : ℚ) 1.2 40 19) = 100 ∧
     escape_count 100 (pixel_real (-2 : ℚ) 1.3 80 48) (pixel_imag (-1.2 : ℚ) 1.2 40 20) = 100) ∧
    (get_color (escape_count 100 (pixel_real (-2 : ℚ) 1.3 80 48)
        (pixel_imag (-1.2 : ℚ) 1.2 40 19), 100) () = { r := 0, g := 0, b := 0 } ∧
     get_color (escape_count 100 (pixel_real (-2 : ℚ) 1.3 80 48)
        (pixel_imag (-1.2 : ℚ) 1.2 40 20), 100) () = { r := 0, g := 0, b := 0 }) ∧
    (mandelbrot.get_mand_tex mandelbrot.scenario_parameters 8 fresh_buf (19 * 80 + 48)
        = some { r := 0, g := 0, b := 0 } ∧
     mandelbrot.get_mand_tex mandelbrot.scenario_parameters 8 fresh_buf (20 * 80 + 48)
        = some { r := 0, g := 0, b := 0 }) := by
  have hre : pixel_real (-2 : ℚ) 1.3 80 48 = 2 / 395 := by
    unfold pixel_real; norm_num
  have him1 : pixel_imag (-1.2 : ℚ) 1.2 40 19 = 2 / 65 := by
    unfold pixel_imag; norm_num
  have him2 : pixel_imag (-1.2 : ℚ) 1.2 40 20 = -(2 / 65) := by
    unfold pixel_imag; norm_num
  have hc1 : escape_count 100 (2 / 395 : ℚ) (2 / 65 : ℚ) = 100 :=
    escape_count_of_small _ _ 100 (by decide) (by norm_num)
  have hc2 : escape_count 100 (2 / 395 : ℚ) (-(2 / 65) : ℚ) = 100 :=
    escape_count_of_small _ _ 100 (by decide) (by norm_num)
  have hblack : ∀ cd : color_data_t,
      get_color ((100 : Int), (100 : Int)) cd = { r := 0, g := 0, b := 0 } := by
    intro cd
    unfold get_color
    simp
  refine ⟨⟨?_, ?_, ?_⟩, ?_, ?_, ⟨?_, ?_⟩, ⟨?_, ?_⟩, ⟨?_, ?_⟩⟩
  · rw [hre]; norm_num
  · rw [him1]; norm_num
  · rw [him2]; norm_num
  · intro x
    rw [hre]
    unfold pixel_real
    rcases le_or_lt x 47 with h | h
    · have hx : ((x : Int) : ℚ) ≤ 47 := by exact_mod_cast h
      rw [abs_of_nonneg (by norm_num), abs_of_nonpos (by norm_num; linarith)]
      norm_num
      linarith
    · have hx : (48 : ℚ) ≤ ((x : Int) : ℚ) := by exact_mod_cast h
      rw [abs_of_nonneg (by norm_num), abs_of_nonneg (by norm_num; linarith)]
      norm_num
      linarith
  · intro y
    rw [him1, him2, abs_neg]
    refine ⟨?_, ?_⟩ <;>
    · unfold pixel_imag
      rcases le_or_lt y 19 with h | h
      · have hy : ((y : Int) : ℚ) ≤ 19 := by exact_mod_cast h
        rw [abs_of_nonneg (by norm_num), abs_of_nonneg (by norm_num; linarith)]
        norm_num
        linarith
      · have hy : (20 : ℚ) ≤ ((y : Int) : ℚ) := by exact_mod_cast h
        rw [abs_of_nonneg (by norm_num), abs_of_nonpos (by norm_num; linarith)]
        norm_num
        linarith
  · rw [hre, him1, hc1]
  · rw [hre, him2, hc2]
  · rw [hre, him1, hc1]
    unfold get_color
    simp
  · rw [hre, him2, hc2]
    unfold get_color
    simp
  · unfold mandelbrot.get_mand_tex
    rw [mandelbrot.tex_run_threads_apply mandelbrot.scenario_parameters (by decide) _
      (mandelbrot.tex_threads_params _ _), if_pos (by decide)]
    show some (get_color (escape_count 100 (pixel_real (-2 : ℚ) 1.3 80 ((19 * 80 + 48) % 80))
      (pixel_imag (-1.2 : ℚ) 1.2 40 ((19 * 80 + 48) / 80)), 100)
      ({ r := 100, g := 100, b := 100 } : color_data_t)) = _
    rw [show ((19 : Int) * 80 + 48) % 80 = 48 from rfl,
      show ((19 : Int) * 80 + 48) / 80 = 19 from rfl, hre, him1, hc1, hblack]
  · unfold mandelbrot.get_mand_tex
    rw [mandelbrot.tex_run_threads_apply mandelbrot.scenario_parameters (by decide) _
      (mandelbrot.tex_threads_params _ _), if_pos (by decide)]
    show some (get_color (escape_count 100 (pixel_real (-2 : ℚ) 1.3 80 ((20 * 80 + 48) % 80))
      (pixel_imag (-1.2 : ℚ) 1.2 40 ((20 * 80 + 48) / 80)), 100)
      ({ r := 100, g := 100, b := 100 } : color_data_t)) = _
    rw [show ((20 : Int) * 80 + 48) % 80 = 48 from rfl,
      show ((20 : Int) * 80 + 48) / 80 = 20 from rfl, hre, him2, hc2, hblack]

/-! ## The export renderer when the thread count exceeds the height -/

namespace mandelbrot

theorem values_update_nonneg (v : Fin 4 → Int) (k : Fin 4) (x : Int)
    (hv : ∀ i, 0 ≤ v i) (hx : 0 ≤ x) : ∀ i, 0 ≤ Function.update v k x i := by
  intro i
  by_cases h : i = k
  · subst h; simpa using hx
  · rw [Function.update_noteq h]; exact hv i

theorem inv_select (inp : frame_input) (s : main_state) (h : controller_inv s) :
    controller_inv (frame_select inp s) := by
  unfold frame_select
  dsimp only
  split_ifs <;> exact h

theorem inv_adjust (inp : frame_input) (s : main_state) (h : controller_inv s) :
    controller_inv (frame_adjust inp s) := by
  have hup : controller_inv (if inp.key_up then
      { s with values := Function.update s.values s.state (s.values s.state + 1) }
      else s) := by
    split_ifs
    · exact ⟨values_update_nonneg _ _ _ h.1 (by have := h.1 s.state; omega), h.2⟩
    · exact h
  unfold frame_adjust
  dsimp only
  generalize (if inp.key_up then
      { s with values := Function.update s.values s.state (s.values s.state + 1) }
      else s) = s1 at hup ⊢
  by_cases hdown : inp.key_down = true
  · rw [if_pos hdown]
    refine ⟨?_, hup.2⟩
    dsimp only
    split_ifs with hneg
    · intro i
      by_cases hi : i = s1.state
      · subst hi; simp
      · rw [Function.update_noteq hi, Function.update_noteq hi]; exact hup.1 i
    · intro i
      by_cases hi : i = s1.state
      · subst hi; exact not_lt.mp hneg
      · rw [Function.update_noteq hi]; exact hup.1 i
  · rw [if_neg hdown]
    exact hup

theorem zoomed_in (z : Int) (p : mand_parameters_t ℚ color_data_t) (h : zoomed z p) :
    zoomed (z + 1)
      { p with
        max_x := p.max_x - 0.1,
        max_y := p.max_y - 0.1,
        min_x := p.min_x + 0.1,
        min_y := p.min_y + 0.1 } := by
  obtain ⟨h1, h2, h3, h4⟩ := h
  unfold zoomed
  dsimp only
  rw [h1, h2, h3, h4]
  push_cast
  refine ⟨?_, ?_, ?_, ?_⟩ <;> ring

theorem zoomed_out (z : Int) (p : mand_parameters_t ℚ color_data_t) (h : zoomed z p) :
    zoomed (z - 1)
      { p with
        max_x := p.max_x + 0.1,
        max_y := p.max_y + 0.1,
        min_x := p.min_x - 0.1,
        min_y := p.min_y - 0.1 } := by
  obtain ⟨h1, h2, h3, h4⟩ := h
  unfold zoomed
  dsimp only
  rw [h1, h2, h3, h4]
  push_cast
  refine ⟨?_, ?_, ?_, ?_⟩ <;> ring

theorem inv_zoom (inp : frame_input) (s : main_state) (h : controller_inv s) :
    controller_inv (frame_zoom inp s) := by
  have hz : controller_inv (if inp.key_z then
      { s with mand_parameters :=
          { s.mand_parameters with
            max_x := s.mand_parameters.max_x - 0.1,
            max_y := s.mand_parameters.max_y - 0.1,
            min_x := s.mand_parameters.min_x + 0.1,
            min_y := s.mand_parameters.min_y + 0.1 } } else s) := by
    split_ifs
    · obtain ⟨hv, ⟨z, hz⟩, hc⟩ := h
      exact ⟨hv, ⟨z + 1, zoomed_in z _ hz⟩, hc⟩
    · exact h
  unfold frame_zoom
  dsimp only
  generalize (if inp.key_z then
      { s with mand_parameters :=
          { s.mand_parameters with
            max_x := s.mand_parameters.max_x - 0.1,
            max_y := s.mand_parameters.max_y - 0.1,
            min_x := s.mand_parameters.min_x + 0.1,
            min_y := s.mand_parameters.min_y + 0.1 } } else s) = s1 at hz ⊢
  split_ifs
  · obtain ⟨hv, ⟨z, hz'⟩, hc⟩ := hz
    exact ⟨hv, ⟨z - 1, zoomed_out z _ hz'⟩, hc⟩
  · exact hz

theorem inv_draw (inp : frame_input) (s : main_state) (h : controller_inv s) :
    controller_inv (frame_draw inp s) := by
  unfold frame_draw
  dsimp only
  split_ifs <;> exact h

theorem inv_frame (inp : frame_input) (s : main_state) (h : controller_inv s) :
    controller_inv (main_frame inp s) := by
  unfold main_frame
  exact inv_draw _ _ (inv_zoom _ _ (inv_adjust _ _ (inv_select _ _ h)))

theorem inv_init : controller_inv main_init := by
  refine ⟨?_, ⟨0, ?_⟩, rfl⟩
  · decide
  · unfold zoomed main_init
    norm_num

theorem inv_run : ∀ (inputs : List frame_input) (s : main_state),
    controller_inv s → controller_inv (main_run inputs s) := by
  intro inputs
  induction inputs with
  | nil => intro s h; exact h
  | cons inp rest ih =>
    intro s h
    exact ih _ (inv_frame inp s h)

theorem run_zoom_in : ∀ (n : Nat) (s : main_state),
    (main_run (List.replicate n { no_key with key_z := true }) s).mand_parameters.max_x
      = s.mand_parameters.max_x - 0.1 * n ∧
    (main_run (List.replicate n { no_key with key_z := true }) s).mand_parameters.min_x
      = s.mand_parameters.min_x + 0.1 * n ∧
    (main_run (List.replicate n { no_key with key_z := true }) s).mand_parameters.max_y
      = s.mand_parameters.max_y - 0.1 * n ∧
    (main_run (List.replicate n { no_key with key_z := true }) s).mand_parameters.min_y
      = s.mand_parameters.min_y + 0.1 * n ∧
    (main_run (List.replicate n { no_key with key_z := true }) s).values = s.values := by
  intro n
  induction n with
  | zero => intro s; simp [main_run]
  | succ n ih =>
    intro s
    have hstep : main_run (List.replicate (n + 1) { no_key with key_z := true }) s
        = main_run (List.replicate n { no_key with key_z := true })
            (main_frame { no_key with key_z := true } s) := rfl
    rw [hstep]
    obtain ⟨h1, h2, h3, h4, h5⟩ := ih (main_frame { no_key with key_z := true } s)
    rw [h1, h2, h3, h4, h5]
    have e1 : (main_frame { no_key with key_z := true } s).mand_parameters.max_x
        = s.mand_parameters.max_x - 0.1 := rfl
    have e2 : (main_frame { no_key with key_z := true } s).mand_parameters.min_x
        = s.mand_parameters.min_x + 0.1 := rfl
    have e3 : (main_frame { no_key with key_z := true } s).mand_parameters.max_y
        = s.mand_parameters.max_y - 0.1 := rfl
    have e4 : (main_frame { no_key with key_z := true } s).mand_parameters.min_y
        = s.mand_parameters.min_y + 0.1 := rfl
    have e5 : (main_frame { no_key with key_z := true } s).values = s.values := rfl
    rw [e1, e2, e3, e4, e5]
    push_cast
    refine ⟨?_, ?_, ?_, ?_, rfl⟩ <;> ring

theorem frame_down_value (s : main_state) (hs : s.state = ITER) (hv : 0 ≤ s.values ITER) :
    (main_frame { no_key with key_down := true } s).state = ITER ∧
    (main_frame { no_key with key_down := true } s).values ITER
      = max (s.values ITER - 1) 0 := by
  have hst : (main_frame { no_key with key_down := true } s).state = s.state := rfl
  have hval : (main_frame { no_key with key_down := true } s).values
      = if Function.update s.values s.state (s.values s.state - 1) s.state < 0 then
          Function.update (Function.update s.values s.state (s.values s.state - 1)) s.state 0
        else Function.update s.values s.state (s.values s.state - 1) := rfl
  refine ⟨hst.trans hs, ?_⟩
  rw [hval, hs]
  simp only [Function.update_same]
  split_ifs with h
  · simp only [Function.update_same]
    omega
  · simp only [Function.update_same]
    omega

theorem run_down : ∀ (n : Nat) (s : main_state), s.state = ITER → 0 ≤ s.values ITER →
    (main_run (List.replicate n { no_key with key_down := true }) s).state = ITER ∧
    (main_run (List.replicate n { no_key with key_down := true }) s).values ITER
      = max (s.values ITER - n) 0 := by
  intro n
  induction n with
  | zero =>
    intro s hs hv
    refine ⟨hs, ?_⟩
    show s.values ITER = _
    simp only [Nat.cast_zero, sub_zero]
    omega
  | succ n ih =>
    intro s hs hv
    have hstep : main_run (List.replicate (n + 1) { no_key with key_down := true }) s
        = main_run (List.replicate n { no_key with key_down := true })
            (main_frame { no_key with key_down := true } s) := rfl
    obtain ⟨f1, f2⟩ := frame_down_value s hs hv
    obtain ⟨h1, h2⟩ := ih (main_frame { no_key with key_down := true } s) f1
      (by rw [f2]; omega)
    rw [hstep]
    refine ⟨h1, ?_⟩
    rw [h2, f2]
    push_cast
    omega

theorem frame_d_call (s : main_state) :
    (main_frame { no_key with key_d := true } s).last_call =
      some { s.mand_parameters with
             max_iter := s.values ITER,
             screen_width := 800,
             screen_height := 400,
             custom_data := { r := s.values R, g := s.values G, b := s.values B } } :=
  rfl

end mandelbrot

theorem select_keeps_parameters (inp : mandelbrot.frame_input) (s : mandelbrot.main_state) :
    (mandelbrot.frame_select inp s).mand_parameters = s.mand_parameters := by
  unfold mandelbrot.frame_select
  dsimp only
  split_ifs <;> rfl

theorem adjust_keeps_parameters (inp : mandelbrot.frame_input) (s : mandelbrot.main_state) :
    (mandelbrot.frame_adjust inp s).mand_parameters = s.mand_parameters := by
  unfold mandelbrot.frame_adjust
  dsimp only
  split_ifs <;> rfl

theorem zoom_tracks_level (inp : mandelbrot.frame_input) (s : mandelbrot.main_state)
    (z : Int) (h : mandelbrot.zoomed z s.mand_parameters) :
    mandelbrot.zoomed (z + mandelbrot.key_zoom inp)
      (mandelbrot.frame_zoom inp s).mand_parameters := by
  unfold mandelbrot.frame_zoom mandelbrot.key_zoom
  dsimp only
  cases hz : inp.key_z <;> cases hu : inp.key_u <;>
    simp only [Bool.false_eq_true, if_true, if_false]
  · have e : z + (0 - 0) = z := by ring
    rw [e]
    exact h
  · have h2 := mandelbrot.zoomed_out z _ h
    have e : z + (0 - 1) = z - 1 := by ring
    rw [e]
    exact h2
  · have h2 := mandelbrot.zoomed_in z _ h
    have e : z + (1 - 0) = z + 1 := by ring
    rw [e]
    exact h2
  · have h2 := mandelbrot.zoomed_out (z + 1) _ (mandelbrot.zoomed_in z _ h)
    have e : z + (1 - 1) = z + 1 - 1 := by ring
    rw [e]
    exact h2

theorem draw_keeps_bounds (inp : mandelbrot.frame_input) (s : mandelbrot.main_state)
    (z : Int) (h : mandelbrot.zoomed z s.mand_parameters) :
    mandelbrot.zoomed z (mandelbrot.frame_draw inp s).mand_parameters := by
  unfold mandelbrot.frame_draw
  dsimp only
  split_ifs <;> exact h

theorem frame_tracks_level (inp : mandelbrot.frame_input) (s : mandelbrot.main_state)
    (z : Int) (h : mandelbrot.zoomed z s.mand_parameters) :
    mandelbrot.zoomed (z + mandelbrot.key_zoom inp)
      (mandelbrot.main_frame inp s).mand_parameters := by
  unfold mandelbrot.main_frame
  dsimp only
  apply draw_keeps_bounds
  apply zoom_tracks_level
  rw [adjust_keeps_parameters, select_keeps_parameters]
  exact h

theorem run_tracks_level : ∀ (inputs : List mandelbrot.frame_input)
    (s : mandelbrot.main_state) (z : Int), mandelbrot.zoomed z s.mand_parameters →
    mandelbrot.zoomed (z + mandelbrot.net_zoom inputs)
      (mandelbrot.main_run inputs s).mand_parameters := by
  intro inputs
  induction inputs with
  | nil =>
    intro s z h
    simpa [mandelbrot.net_zoom, mandelbrot.main_run] using h
  | cons inp rest ih =>
    intro s z h
    have e : z + mandelbrot.net_zoom (inp :: rest)
        = z + mandelbrot.key_zoom inp + mandelbrot.net_zoom rest := by
      simp only [mandelbrot.net_zoom, List.map_cons, List.sum_cons]
      ring
    rw [e]
    exact ih _ _ (frame_tracks_level inp s z h)

theorem net_zoom_snoc (inputs : List mandelbrot.frame_input) (inp : mandelbrot.frame_input) :
    mandelbrot.net_zoom (inputs ++ [inp])
      = mandelbrot.net_zoom inputs + mandelbrot.key_zoom inp := by
  simp [mandelbrot.net_zoom, List.map_append, List.sum_append]

theorem zoomed_ordered (z : Int) (p : mandelbrot.mand_parameters_t ℚ color_data_t)
    (hz : mandelbrot.zoomed z p) (hle : z ≤ 11) :
    p.max_x > p.min_x ∧ p.max_y > p.min_y := by
  obtain ⟨h1, h2, h3, h4⟩ := hz
  have : (z : ℚ) ≤ 11 := by exact_mod_cast hle
  rw [h1, h2, h3, h4]
  constructor <;> linarith

theorem zoomed_inverted (z : Int) (p : mandelbrot.mand_parameters_t ℚ color_data_t)
    (hz : mandelbrot.zoomed z p) (hge : 13 ≤ z) : p.max_y < p.min_y := by
  obtain ⟨_, _, h3, h4⟩ := hz
  have : (13 : ℚ) ≤ (z : ℚ) := by exact_mod_cast hge
  rw [h3, h4]
  linarith

/-- C17, as stated, fails: after the key event `Z` in 13 frames, the key event `D`
calls `get_mand_tex` with `max_y < min_y`; and after `DOWN` in 400 frames (the
selection still on the iteration count), `D` calls it with `max_iter = 0`.  The
window has its start-up size throughout. -/
theorem controller_passes_invalid_viewport :
    (∃ p, (mandelbrot.main_frame { mandelbrot.no_key with key_d := true }
          (mandelbrot.main_run
            (List.replicate 13 { mandelbrot.no_key with key_z := true })
            mandelbrot.main_init)).last_call = some p ∧
        1 ≤ p.screen_width ∧ 1 ≤ p.screen_height ∧
        p.max_y < p.min_y ∧ ¬ (p.max_y > p.min_y)) ∧
    (∃ p, (mandelbrot.main_frame { mandelbrot.no_key with key_d := true }
          (mandelbrot.main_run
            (List.replicate 400 { mandelbrot.no_key with key_down := true })
            mandelbrot.main_init)).last_call = some p ∧
        1 ≤ p.screen_width ∧ 1 ≤ p.screen_height ∧
        p.max_iter = 0 ∧ ¬ (1 ≤ p.max_iter)) := by
  constructor
  · obtain ⟨_, _, h3, h4, _⟩ := mandelbrot.run_zoom_in 13 mandelbrot.main_init
    have hlt : (mandelbrot.main_run
          (List.replicate 13 { mandelbrot.no_key with key_z := true })
          mandelbrot.main_init).mand_parameters.max_y
        < (mandelbrot.main_run
          (List.replicate 13 { mandelbrot.no_key with key_z := true })
          mandelbrot.main_init).mand_parameters.min_y := by
      rw [h3, h4]
      show (1.2 : ℚ) - 0.1 * ((13 : Nat) : ℚ) < (-1.2 : ℚ) + 0.1 * ((13 : Nat) : ℚ)
      norm_num
    generalize mandelbrot.main_run
      (List.replicate 13 { mandelbrot.no_key with key_z := true })
      mandelbrot.main_init = S at hlt ⊢
    exact ⟨_, mandelbrot.frame_d_call S, show (1 : Int) ≤ 800 by decide,
      show (1 : Int) ≤ 400 by decide, hlt, not_lt.mpr (le_of_lt hlt)⟩
  · obtain ⟨_, h2⟩ := mandelbrot.run_down 400 mandelbrot.main_init rfl (by decide)
    have h0 : (mandelbrot.main_run
        (List.replicate 400 { mandelbrot.no_key with key_down := true })
        mandelbrot.main_init).values mandelbrot.ITER = 0 := by
      rw [h2]
      decide
    generalize mandelbrot.main_run
      (List.replicate 400 { mandelbrot.no_key with key_down := true })
      mandelbrot.main_init = S at h0 ⊢
    refine ⟨_, mandelbrot.frame_d_call S, show (1 : Int) ≤ 800 by decide,
      show (1 : Int) ≤ 400 by decide, h0, ?_⟩
    show ¬ (1 ≤ S.values mandelbrot.ITER)
    rw [h0]
    decide

theorem select_keeps_window (inp : mandelbrot.frame_input) (s : mandelbrot.main_state) :
    (mandelbrot.frame_select inp s).screen_width = s.screen_width ∧
    (mandelbrot.frame_select inp s).screen_height = s.screen_height := by
  unfold mandelbrot.frame_select
  dsimp only
  split_ifs <;> exact ⟨rfl, rfl⟩

theorem adjust_keeps_window (inp : mandelbrot.frame_input) (s : mandelbrot.main_state) :
    (mandelbrot.frame_adjust inp s).screen_width = s.screen_width ∧
    (mandelbrot.frame_adjust inp s).screen_height = s.screen_height := by
  unfold mandelbrot.frame_adjust
  dsimp only
  split_ifs <;> exact ⟨rfl, rfl⟩

theorem zoom_keeps_window (inp : mandelbrot.frame_input) (s : mandelbrot.main_state) :
    (mandelbrot.frame_zoom inp s).screen_width = s.screen_width ∧
    (mandelbrot.frame_zoom inp s).screen_height = s.screen_height := by
  unfold mandelbrot.frame_zoom
  dsimp only
  split_ifs <;> exact ⟨rfl, rfl⟩

theorem frame_keeps_window (inp : mandelbrot.frame_input) (s : mandelbrot.main_state) :
    (mandelbrot.frame_zoom inp (mandelbrot.frame_adjust inp
      (mandelbrot.frame_select inp s))).screen_width = s.screen_width ∧
    (mandelbrot.frame_zoom inp (mandelbrot.frame_adjust inp
      (mandelbrot.frame_select inp s))).screen_height = s.screen_height := by
  obtain ⟨a1, a2⟩ := select_keeps_window inp s
  obtain ⟨b1, b2⟩ := adjust_keeps_window inp (mandelbrot.frame_select inp s)
  obtain ⟨c1, c2⟩ := zoom_keeps_window inp
    (mandelbrot.frame_adjust inp (mandelbrot.frame_select inp s))
  exact ⟨c1.trans (b1.trans a1), c2.trans (b2.trans a2)⟩

/-- C17, amended. In every state `main` can reach, under any key tests and window
sizes, a frame whose `D` test is true (window at least `1 × 1`) calls `get_mand_tex`
with the window's size and `max_iter ≥ 0`.  With `z` the number of `Z` presses minus
the number of `U` presses up to and including that frame (exact arithmetic for the
`0.1` steps): the parameters form a valid viewport (`max_iter ≥ 1`, `max_x > min_x`,
`max_y > min_y`) whenever `max_iter ≠ 0` and `z ≤ 11`, and they do not whenever
`max_iter = 0` or `z ≥ 13`. -/
theorem controller_call_parameters (inputs : List mandelbrot.frame_input)
    (inp : mandelbrot.frame_input) (hd : inp.key_d = true)
    (hw : 1 ≤ inp.screen_width) (hh : 1 ≤ inp.screen_height) :
    ∃ p, (mandelbrot.main_frame inp
        (mandelbrot.main_run inputs mandelbrot.main_init)).last_call = some p ∧
      p.screen_width = inp.screen_width ∧ p.screen_height = inp.screen_height ∧
      1 ≤ p.screen_width ∧ 1 ≤ p.screen_height ∧
      0 ≤ p.max_iter ∧
      (p.max_iter ≠ 0 → mandelbrot.net_zoom (inputs ++ [inp]) ≤ 11 →
        (1 ≤ p.max_iter ∧ p.max_x > p.min_x ∧ p.max_y > p.min_y)) ∧
      (p.max_iter = 0 ∨ 13 ≤ mandelbrot.net_zoom (inputs ++ [inp]) →
        ¬ (1 ≤ p.max_iter ∧ p.max_x > p.min_x ∧ p.max_y > p.min_y)) := by
  have hinv := mandelbrot.inv_run inputs mandelbrot.main_init mandelbrot.inv_init
  have hzero : mandelbrot.zoomed 0 mandelbrot.main_init.mand_parameters := by
    unfold mandelbrot.zoomed mandelbrot.main_init
    norm_num
  have hlevel := run_tracks_level inputs mandelbrot.main_init 0 hzero
  rw [Int.zero_add] at hlevel
  have h3 := mandelbrot.inv_zoom inp _ (mandelbrot.inv_adjust inp _
    (mandelbrot.inv_select inp
      { mandelbrot.main_run inputs mandelbrot.main_init with
        screen_height := inp.screen_height, screen_width := inp.screen_width } hinv))
  have hz3 : mandelbrot.zoomed (mandelbrot.net_zoom (inputs ++ [inp]))
      (mandelbrot.frame_zoom inp (mandelbrot.frame_adjust inp
        (mandelbrot.frame_select inp
          { mandelbrot.main_run inputs mandelbrot.main_init with
            screen_height := inp.screen_height,
            screen_width := inp.screen_width }))).mand_parameters := by
    rw [net_zoom_snoc]
    apply zoom_tracks_level
    rw [adjust_keeps_parameters, select_keeps_parameters]
    exact hlevel
  have hdim := frame_keeps_window inp
      { mandelbrot.main_run inputs mandelbrot.main_init with
        screen_height := inp.screen_height, screen_width := inp.screen_width }
  unfold mandelbrot.main_frame
  dsimp only at hdim ⊢
  generalize mandelbrot.frame_zoom inp (mandelbrot.frame_adjust inp
    (mandelbrot.frame_select inp
      { mandelbrot.main_run inputs mandelbrot.main_init with
        screen_height := inp.screen_height, screen_width := inp.screen_width })) = s3
    at h3 hz3 hdim ⊢
  generalize mandelbrot.net_zoom (inputs ++ [inp]) = z at hz3 ⊢
  obtain ⟨hv, _, _⟩ := h3
  have hcall : (mandelbrot.frame_draw inp s3).last_call =
      some { s3.mand_parameters with
             max_iter := s3.values mandelbrot.ITER,
             screen_width := s3.screen_width,
             screen_height := s3.screen_height,
             custom_data := { r := s3.values mandelbrot.R, g := s3.values mandelbrot.G,
                              b := s3.values mandelbrot.B } } := by
    unfold mandelbrot.frame_draw
    rw [if_pos hd]
  have hz' : mandelbrot.zoomed z
      { s3.mand_parameters with
        max_iter := s3.values mandelbrot.ITER,
        screen_width := s3.screen_width,
        screen_height := s3.screen_height,
        custom_data := { r := s3.values mandelbrot.R, g := s3.values mandelbrot.G,
                         b := s3.values mandelbrot.B } } := hz3
  have hm : 0 ≤ s3.values mandelbrot.ITER := hv mandelbrot.ITER
  refine ⟨_, hcall, hdim.1, hdim.2, ?_, ?_, hm, ?_, ?_⟩
  · show 1 ≤ s3.screen_width
    rw [hdim.1]; exact hw
  · show 1 ≤ s3.screen_height
    rw [hdim.2]; exact hh
  · intro hne hle
    have hne' : s3.values mandelbrot.ITER ≠ 0 := hne
    exact ⟨show 1 ≤ s3.values mandelbrot.ITER by omega, zoomed_ordered z _ hz' hle⟩
  · rintro (h0 | hge) ⟨a, _, c⟩
    · have h0' : s3.values mandelbrot.ITER = 0 := h0
      have a' : 1 ≤ s3.values mandelbrot.ITER := a
      omega
    · exact absurd c (not_lt.mpr (le_of_lt (zoomed_inverted z _ hz' hge)))

theorem controller_call_parameters_witness :
    mandelbrot.net_zoom
        ([{ mandelbrot.no_key with key_z := true },
          { mandelbrot.no_key with key_right := true },
          { mandelbrot.no_key with key_down := true }]
          ++ [{ mandelbrot.no_key with key_d := true }]) = 1 ∧
    ∃ p, (mandelbrot.main_frame { mandelbrot.no_key with key_d := true }
        (mandelbrot.main_run
          [{ mandelbrot.no_key with key_z := true },
           { mandelbrot.no_key with key_right := true },
           { mandelbrot.no_key with key_down := true }]
          mandelbrot.main_init)).last_call = some p ∧
      p.screen_width = 800 ∧ p.screen_height = 400 ∧
      1 ≤ p.screen_width ∧ 1 ≤ p.screen_height ∧
      0 ≤ p.max_iter ∧
      (p.max_iter ≠ 0 →
        mandelbrot.net_zoom
          ([{ mandelbrot.no_key with key_z := true },
            { mandelbrot.no_key with key_right := true },
            { mandelbrot.no_key with key_down := true }]
            ++ [{ mandelbrot.no_key with key_d := true }]) ≤ 11 →
        (1 ≤ p.max_iter ∧ p.max_x > p.min_x ∧ p.max_y > p.min_y)) ∧
      (p.max_iter = 0 ∨
        13 ≤ mandelbrot.net_zoom
          ([{ mandelbrot.no_key with key_z := true },
            { mandelbrot.no_key with key_right := true },
            { mandelbrot.no_key with key_down := true }]
            ++ [{ mandelbrot.no_key with key_d := true }]) →
        ¬ (1 ≤ p.max_iter ∧ p.max_x > p.min_x ∧ p.max_y > p.min_y)) :=
  ⟨by decide,
   controller_call_parameters
    [{ mandelbrot.no_key with key_z := true },
     { mandelbrot.no_key with key_right := true },
     { mandelbrot.no_key with key_down := true }]
    { mandelbrot.no_key with key_d := true } rfl (by decide) (by decide)⟩

/-! ## The auxiliary colour parameter -/

theorem tex_run_threads_map_congr {α γ : Type} [Add α] [Sub α] [Mul α] [Div α]
    [IntCast α] [LE α] [∀ a b : α, Decidable (a ≤ b)]
    (f g : Nat → mandelbrot.thread_data_t α γ)
    (hfg : ∀ (k : Nat) (buf : Buffer),
      mandelbrot.calc_mandelbrot (f k) buf = mandelbrot.calc_mandelbrot (g k) buf) :
    ∀ (l : List Nat) (buf : Buffer),
      mandelbrot.run_threads (l.map f) buf = mandelbrot.run_threads (l.map g) buf := by
  intro l
  induction l with
  | nil => intro buf; rfl
  | cons k rest ih =>
    intro buf
    show mandelbrot.run_threads (rest.map f) (mandelbrot.calc_mandelbrot (f k) buf)
      = mandelbrot.run_threads (rest.map g) (mandelbrot.calc_mandelbrot (g k) buf)
    rw [hfg k buf, ih]

/-- With `get_color` as colour function, the buffer `get_mand_tex` produces does
not depend on `custom_data`. -/
theorem get_mand_tex_custom_data {α γ : Type} [Add α] [Sub α] [Mul α] [Div α]
    [IntCast α] [LE α] [∀ a b : α, Decidable (a ≤ b)]
    (param : mandelbrot.mand_parameters_t α γ) (hcol : param.get_color_func = get_color)
    (cd : γ) (thread_count : Int) (buf : Buffer) :
    mandelbrot.get_mand_tex param thread_count buf =
      mandelbrot.get_mand_tex { param with custom_data := cd } thread_count buf := by
  unfold mandelbrot.get_mand_tex
  rw [mandelbrot.get_mand_tex_threads_eq, mandelbrot.get_mand_tex_threads_eq]
  apply tex_run_threads_map_congr
  intro k b
  unfold mandelbrot.calc_mandelbrot
  dsimp only
  rw [hcol]
  rfl

/-- C16. `get_color` ignores its auxiliary parameter: for every `iter`, `max_iter` and
any two `custom_data` values the results agree.  Consequently the buffer
`get_mand_tex` renders with `get_color` is the same for any two `custom_data`, and in
the interactive program the buffer rendered by a frame whose `D` test is true does
not change when the red/green/blue caps handed over as `custom_data` are replaced by
any others. -/
theorem get_color_ignores_custom_data {α γ : Type} [Add α] [Sub α] [Mul α] [Div α]
    [IntCast α] [LE α] [∀ a b : α, Decidable (a ≤ b)]
    (iter max_iter : Int) (p1 p2 : γ)
    (param : mandelbrot.mand_parameters_t α γ) (thread_count : Int) (buf : Buffer)
    (inputs : List mandelbrot.frame_input) (inp : mandelbrot.frame_input)
    (hd : inp.key_d = true) :
    get_color (iter, max_iter) p1 = get_color (iter, max_iter) p2 ∧
    mandelbrot.get_mand_tex
        { param with get_color_func := get_color, custom_data := p1 } thread_count buf
      = mandelbrot.get_mand_tex
        { param with get_color_func := get_color, custom_data := p2 } thread_count buf ∧
    ∃ p, (mandelbrot.main_frame inp
        (mandelbrot.main_run inputs mandelbrot.main_init)).last_call = some p ∧
      p.custom_data =
        { r := (mandelbrot.main_frame inp
                  (mandelbrot.main_run inputs mandelbrot.main_init)).values mandelbrot.R,
          g := (mandelbrot.main_frame inp
                  (mandelbrot.main_run inputs mandelbrot.main_init)).values mandelbrot.G,
          b := (mandelbrot.main_frame inp
                  (mandelbrot.main_run inputs mandelbrot.main_init)).values mandelbrot.B } ∧
      ∀ caps : color_data_t,
        (mandelbrot.main_frame inp
          (mandelbrot.main_run inputs mandelbrot.main_init)).mand_tex
        = mandelbrot.get_mand_tex { p with custom_data := caps }
            mandelbrot.THREAD_COUNT fresh_buf := by
  refine ⟨rfl, ?_, ?_⟩
  · exact get_mand_tex_custom_data
      { param with get_color_func := get_color, custom_data := p1 } rfl p2 thread_count buf
  · have hinv := mandelbrot.inv_run inputs mandelbrot.main_init mandelbrot.inv_init
    have h3 := mandelbrot.inv_zoom inp _ (mandelbrot.inv_adjust inp _
      (mandelbrot.inv_select inp
        { mandelbrot.main_run inputs mandelbrot.main_init with
          screen_height := inp.screen_height, screen_width := inp.screen_width } hinv))
    unfold mandelbrot.main_frame
    dsimp only
    generalize mandelbrot.frame_zoom inp (mandelbrot.frame_adjust inp
      (mandelbrot.frame_select inp
        { mandelbrot.main_run inputs mandelbrot.main_init with
          screen_height := inp.screen_height, screen_width := inp.screen_width })) = s3
      at h3 ⊢
    obtain ⟨_, _, hcol⟩ := h3
    unfold mandelbrot.frame_draw
    rw [if_pos hd]
    refine ⟨_, rfl, rfl, ?_⟩
    intro caps
    exact get_mand_tex_custom_data
      { s3.mand_parameters with
        max_iter := s3.values mandelbrot.ITER,
        screen_width := s3.screen_width,
        screen_height := s3.screen_height,
        custom_data := { r := s3.values mandelbrot.R, g := s3.values mandelbrot.G,
                         b := s3.values mandelbrot.B } }
      hcol caps mandelbrot.THREAD_COUNT fresh_buf

theorem get_color_ignores_custom_data_witness :
    get_color (3, 4) ({ r := 100, g := 100, b := 100 } : color_data_t)
      = get_color (3, 4) ({ r := 0, g := 255, b := 7 } : color_data_t) ∧
    mandelbrot.get_mand_tex
        { mandelbrot.main_parameters 2 5 with
          get_color_func := get_color,
          custom_data := ({ r := 100, g := 100, b := 100 } : color_data_t) }
        2 fresh_buf
      = mandelbrot.get_mand_tex
        { mandelbrot.main_parameters 2 5 with
          get_color_func := get_color,
          custom_data := ({ r := 0, g := 255, b := 7 } : color_data_t) }
        2 fresh_buf :=
  ⟨(get_color_ignores_custom_data 3 4 ({ r := 100, g := 100, b := 100 } : color_data_t)
      ({ r := 0, g := 255, b := 7 } : color_data_t) (mandelbrot.main_parameters 2 5) 2
      fresh_buf []
      { mandelbrot.no_key with key_d := true } rfl).1,
   (get_color_ignores_custom_data 3 4 ({ r := 100, g := 100, b := 100 } : color_data_t)
      ({ r := 0, g := 255, b := 7 } : color_data_t) (mandelbrot.main_parameters 2 5) 2
      fresh_buf []
      { mandelbrot.no_key with key_d := true } rfl).2.1⟩

/-! ## The divisors of the pixel-to-complex mapping -/

theorem pixel_real_divides_by {α : Type} [Add α] [Sub α] [Mul α] [Div α] [IntCast α]
    (min_x max_x : α) (screen_width screen_x : Int) :
    pixel_real min_x max_x screen_width screen_x =
      min_x + ((max_x - min_x) / real_divisor screen_width * ((screen_x : Int) : α)) :=
  rfl

theorem pixel_imag_divides_by {α : Type} [Add α] [Sub α] [Mul α] [Div α] [IntCast α]
    (min_y max_y : α) (screen_height screen_y : Int) :
    pixel_imag min_y max_y screen_height screen_y =
      max_y - ((max_y - min_y) / imag_divisor screen_height * ((screen_y : Int) : α)) :=
  rfl

theorem divisor_ne_zero_iff (n : Int) (hn : 1 ≤ n) :
    (((n - 1 : Int) : ℚ) ≠ 0) ↔ 2 ≤ n := by
  rw [Ne, Int.cast_eq_zero]
  omega

/-- C18, as stated, fails: a viewport with `screen_width = 1` and `screen_height = 1`
has dimensions at least `1`, and both divisors of the mapping are zero. -/
theorem divisors_zero_at_one_by_one :
    (1 : Int) ≤ 1 ∧
    real_divisor 1 = (0 : ℚ) ∧ imag_divisor 1 = (0 : ℚ) ∧
    (∀ (min_x max_x : ℚ) (screen_x : Int), pixel_real min_x max_x 1 screen_x =
      min_x + ((max_x - min_x) / real_divisor 1 * ((screen_x : Int) : ℚ))) ∧
    (∀ (min_y max_y : ℚ) (screen_y : Int), pixel_imag min_y max_y 1 screen_y =
      max_y - ((max_y - min_y) / imag_divisor 1 * ((screen_y : Int) : ℚ))) := by
  refine ⟨le_refl _, ?_, ?_, fun _ _ _ => rfl, fun _ _ _ => rfl⟩
  · simp [real_divisor]
  · simp [imag_divisor]

/-- C18, amended. For a viewport with `screen_width ≥ 1` and `screen_height ≥ 1`, the
divisor `screen_width - 1` of the `real` mapping is non-zero exactly when
`screen_width ≥ 2`, and the divisor `screen_height - 1` of the `imag` mapping is
non-zero exactly when `screen_height ≥ 2`. -/
theorem divisors_nonzero_iff (screen_width screen_height : Int)
    (hw : 1 ≤ screen_width) (hh : 1 ≤ screen_height) :
    ((real_divisor screen_width : ℚ) ≠ 0 ↔ 2 ≤ screen_width) ∧
    ((imag_divisor screen_height : ℚ) ≠ 0 ↔ 2 ≤ screen_height) ∧
    (∀ (min_x max_x : ℚ) (screen_x : Int), pixel_real min_x max_x screen_width screen_x =
      min_x + ((max_x - min_x) / real_divisor screen_width * ((screen_x : Int) : ℚ))) ∧
    (∀ (min_y max_y : ℚ) (screen_y : Int), pixel_imag min_y max_y screen_height screen_y =
      max_y - ((max_y - min_y) / imag_divisor screen_height * ((screen_y : Int) : ℚ))) :=
  ⟨divisor_ne_zero_iff screen_width hw, divisor_ne_zero_iff screen_height hh,
   fun _ _ _ => rfl, fun _ _ _ => rfl⟩

theorem divisors_nonzero_iff_witness :
    ((1 : Int) ≤ 80 ∧ (1 : Int) ≤ 40) ∧
    (real_divisor 80 : ℚ) ≠ 0 ∧ (imag_divisor 40 : ℚ) ≠ 0 :=
  ⟨by decide,
   (divisors_nonzero_iff 80 40 (by decide) (by decide)).1.mpr (by decide),
   (divisors_nonzero_iff 80 40 (by decide) (by decide)).2.1.mpr (by decide)⟩

/-! ## Range of the colour values, termination of the escape-time loop -/

theorem to_uint8_in_range (v : ℚ) (h0 : 0 ≤ v) (h1 : v < 255) :
    0 ≤ float_to_int v ∧ float_to_int v < 255 ∧
    ((to_uint8 v : Nat) : Int) = float_to_int v ∧ clamp_u8 v = spec_trunc v := by
  have hf0 : 0 ≤ ⌊v⌋ := Int.floor_nonneg.mpr h0
  have hf1 : ⌊v⌋ < 255 := Int.floor_lt.mpr (by exact_mod_cast h1)
  have hf : float_to_int v = ⌊v⌋ := float_to_int_of_nonneg v h0
  refine ⟨by omega, by omega, ?_, ?_⟩
  · unfold to_uint8
    omega
  · unfold clamp_u8 spec_trunc
    rw [if_pos h0]
    omega

/-- C19. `get_color` over exact rational arithmetic: for `max_iter ≥ 1`,
`0 ≤ iter < max_iter` and `t = iter / max_iter`, each of `9·(1-t)·t³·255`,
`15·(1-t)²·t²·255` and `8.5·(1-t)³·t·255` lies in `[0, 255)`; so the conversion to
`uint8_t` is in range (the channel is the truncated value itself, nothing wraps) and
clamping to `[0, 255]` changes nothing. -/
theorem get_color_values_in_range {γ : Type} (iter max_iter : Int) (custom_data : γ)
    (_hm : 1 ≤ max_iter) (h0 : 0 ≤ iter) (h1 : iter < max_iter) :
    (0 ≤ 9 * (1 - (iter : ℚ) / (max_iter : ℚ)) * ((iter : ℚ) / (max_iter : ℚ)) ^ 3 * 255 ∧
      9 * (1 - (iter : ℚ) / (max_iter : ℚ)) * ((iter : ℚ) / (max_iter : ℚ)) ^ 3 * 255 < 255 ∧
      (((get_color (iter, max_iter) custom_data).r : Nat) : Int) =
        float_to_int (9 * (1 - (iter : ℚ) / (max_iter : ℚ))
          * ((iter : ℚ) / (max_iter : ℚ)) ^ 3 * 255) ∧
      clamp_u8 (9 * (1 - (iter : ℚ) / (max_iter : ℚ))
          * ((iter : ℚ) / (max_iter : ℚ)) ^ 3 * 255) =
        spec_trunc (9 * (1 - (iter : ℚ) / (max_iter : ℚ))
          * ((iter : ℚ) / (max_iter : ℚ)) ^ 3 * 255)) ∧
    (0 ≤ 15 * (1 - (iter : ℚ) / (max_iter : ℚ)) ^ 2
        * ((iter : ℚ) / (max_iter : ℚ)) ^ 2 * 255 ∧
      15 * (1 - (iter : ℚ) / (max_iter : ℚ)) ^ 2
        * ((iter : ℚ) / (max_iter : ℚ)) ^ 2 * 255 < 255 ∧
      (((get_color (iter, max_iter) custom_data).g : Nat) : Int) =
        float_to_int (15 * (1 - (iter : ℚ) / (max_iter : ℚ)) ^ 2
          * ((iter : ℚ) / (max_iter : ℚ)) ^ 2 * 255) ∧
      clamp_u8 (15 * (1 - (iter : ℚ) / (max_iter : ℚ)) ^ 2
          * ((iter : ℚ) / (max_iter : ℚ)) ^ 2 * 255) =
        spec_trunc (15 * (1 - (iter : ℚ) / (max_iter : ℚ)) ^ 2
          * ((iter : ℚ) / (max_iter : ℚ)) ^ 2 * 255)) ∧
    (0 ≤ 8.5 * (1 - (iter : ℚ) / (max_iter : ℚ)) ^ 3
        * ((iter : ℚ) / (max_iter : ℚ)) * 255 ∧
      8.5 * (1 - (iter : ℚ) / (max_iter : ℚ)) ^ 3
        * ((iter : ℚ) / (max_iter : ℚ)) * 255 < 255 ∧
      (((get_color (iter, max_iter) custom_data).b : Nat) : Int) =
        float_to_int (8.5 * (1 - (iter : ℚ) / (max_iter : ℚ)) ^ 3
          * ((iter : ℚ) / (max_iter : ℚ)) * 255) ∧
      clamp_u8 (8.5 * (1 - (iter : ℚ) / (max_iter : ℚ)) ^ 3
          * ((iter : ℚ) / (max_iter : ℚ)) * 255) =
        spec_trunc (8.5 * (1 - (iter : ℚ) / (max_iter : ℚ)) ^ 3
          * ((iter : ℚ) / (max_iter : ℚ)) * 255)) := by
  have hm : (0 : ℚ) < (max_iter : ℚ) := by
    have : (0 : Int) < max_iter := by omega
    exact_mod_cast this
  have ht0 : (0 : ℚ) ≤ (iter : ℚ) / (max_iter : ℚ) :=
    div_nonneg (by exact_mod_cast h0) hm.le
  have ht1 : (iter : ℚ) / (max_iter : ℚ) ≤ 1 := by
    rw [div_le_one hm]
    exact_mod_cast h1.le
  have hcode : get_color (iter, max_iter) custom_data =
      { r := to_uint8 (9 * (1 - (iter : ℚ) / (max_iter : ℚ)) * ((iter : ℚ) / (max_iter : ℚ))
              * ((iter : ℚ) / (max_iter : ℚ)) * ((iter : ℚ) / (max_iter : ℚ)) * 255),
        g := to_uint8 (15 * (1 - (iter : ℚ) / (max_iter : ℚ))
              * (1 - (iter : ℚ) / (max_iter : ℚ)) * ((iter : ℚ) / (max_iter : ℚ))
              * ((iter : ℚ) / (max_iter : ℚ)) * 255),
        b := to_uint8 (8.5 * (1 - (iter : ℚ) / (max_iter : ℚ))
              * (1 - (iter : ℚ) / (max_iter : ℚ)) * (1 - (iter : ℚ) / (max_iter : ℚ))
              * ((iter : ℚ) / (max_iter : ℚ)) * 255) } := by
    unfold get_color
    simp only [ge_iff_le]
    rw [if_neg (by omega)]
  rw [hcode]
  dsimp only
  generalize (iter : ℚ) / (max_iter : ℚ) = t at ht0 ht1 ⊢
  obtain ⟨c0, c1⟩ := cubic_bound t ht0 ht1
  obtain ⟨d0, d1⟩ := cubic_bound (1 - t) (by linarith) (by linarith)
  obtain ⟨q0, q1⟩ := quartic_bound t ht0 ht1
  have e2 : (1 - (1 - t)) * (1 - t) ^ 3 = (1 - t) ^ 3 * t := by ring
  rw [e2] at d0 d1
  have er : 9 * (1 - t) * t * t * t * 255 = 9 * (1 - t) * t ^ 3 * 255 := by ring
  have eg : 15 * (1 - t) * (1 - t) * t * t * 255 = 15 * (1 - t) ^ 2 * t ^ 2 * 255 := by ring
  have eb : 8.5 * (1 - t) * (1 - t) * (1 - t) * t * 255 = 8.5 * (1 - t) ^ 3 * t * 255 := by
    ring
  rw [er, eg, eb]
  have hr0 : 0 ≤ 9 * (1 - t) * t ^ 3 * 255 := by nlinarith
  have hr1 : 9 * (1 - t) * t ^ 3 * 255 < 255 := by nlinarith
  have hg0 : 0 ≤ 15 * (1 - t) ^ 2 * t ^ 2 * 255 := by nlinarith
  have hg1 : 15 * (1 - t) ^ 2 * t ^ 2 * 255 < 255 := by nlinarith
  have hb0 : 0 ≤ 8.5 * (1 - t) ^ 3 * t * 255 := by norm_num; nlinarith
  have hb1 : 8.5 * (1 - t) ^ 3 * t * 255 < 255 := by norm_num; nlinarith
  exact ⟨⟨hr0, hr1, (to_uint8_in_range _ hr0 hr1).2.2⟩,
    ⟨hg0, hg1, (to_uint8_in_range _ hg0 hg1).2.2⟩,
    ⟨hb0, hb1, (to_uint8_in_range _ hb0 hb1).2.2⟩⟩

theorem get_color_values_in_range_witness :
    ((1 : Int) ≤ 4 ∧ (0 : Int) ≤ 3 ∧ (3 : Int) < 4) ∧
    0 ≤ 9 * (1 - ((3 : Int) : ℚ) / ((4 : Int) : ℚ)) * (((3 : Int) : ℚ) / ((4 : Int) : ℚ)) ^ 3
      * 255 ∧
    9 * (1 - ((3 : Int) : ℚ) / ((4 : Int) : ℚ)) * (((3 : Int) : ℚ) / ((4 : Int) : ℚ)) ^ 3
      * 255 < 255 :=
  ⟨by decide,
   (get_color_values_in_range 3 4 () (by decide) (by decide) (by decide)).1.1,
   (get_color_values_in_range 3 4 () (by decide) (by decide) (by decide)).1.2.1⟩

/-- C20. Escape-time loop: it is left after at most `max_iter` passes through its
body, with its guard false, and more fuel changes nothing; over exact arithmetic,
for `max_iter ≥ 1` the final count satisfies `1 ≤ current_iter ≤ max_iter` (the first
test passes since `z` starts at `0`), so no pixel reaches the colour function with
`iter = 0`; for `max_iter ≤ 0` the count is `0`. -/
theorem escape_loop_terminates_with_positive_count {α : Type} [Add α] [Sub α] [Mul α]
    [Div α] [IntCast α] [LE α] [∀ a b : α, Decidable (a ≤ b)]
    (max_iter : Int) (real imag : α) (qreal qimag : ℚ) :
    (∃ k : Nat, k ≤ max_iter.toNat ∧
      escape_loop max_iter real imag max_iter.toNat
          { z_real := ((0 : Int) : α), z_imag := ((0 : Int) : α), current_iter := 0 }
        = (escape_body real imag)^[k]
          { z_real := ((0 : Int) : α), z_imag := ((0 : Int) : α), current_iter := 0 } ∧
      escape_count max_iter real imag = (k : Int) ∧
      ¬ escape_guard max_iter (escape_loop max_iter real imag max_iter.toNat
          { z_real := ((0 : Int) : α), z_imag := ((0 : Int) : α), current_iter := 0 }) ∧
      ∀ more : Nat, escape_loop max_iter real imag (max_iter.toNat + more)
          { z_real := ((0 : Int) : α), z_imag := ((0 : Int) : α), current_iter := 0 }
        = escape_loop max_iter real imag max_iter.toNat
          { z_real := ((0 : Int) : α), z_imag := ((0 : Int) : α), current_iter := 0 }) ∧
    (1 ≤ max_iter →
      1 ≤ escape_count max_iter qreal qimag ∧ escape_count max_iter qreal qimag ≤ max_iter ∧
      escape_count max_iter qreal qimag ≠ 0) ∧
    (max_iter ≤ 0 → escape_count max_iter real imag = 0) := by
  refine ⟨?_, ?_, ?_⟩
  · obtain ⟨k, hk, hres, _, _⟩ := escape_loop_passes max_iter real imag max_iter.toNat
      { z_real := ((0 : Int) : α), z_imag := ((0 : Int) : α), current_iter := 0 }
    refine ⟨k, hk, hres, ?_, escape_loop_exits max_iter real imag, ?_⟩
    · unfold escape_count
      rw [hres, escape_body_iter_count]
      simp
    · intro more
      exact escape_loop_stable max_iter real imag _ _ more (escape_loop_exits max_iter real imag)
  · intro hm
    obtain ⟨k, hk, hres, _, hafter⟩ := escape_loop_passes max_iter qreal qimag max_iter.toNat
      { z_real := ((0 : Int) : ℚ), z_imag := ((0 : Int) : ℚ), current_iter := 0 }
    have hcount : escape_count max_iter qreal qimag = (k : Int) := by
      unfold escape_count
      rw [hres, escape_body_iter_count]
      simp
    have hk1 : 1 ≤ k := by
      by_contra hcon
      have hk0 : k = 0 := by omega
      subst hk0
      apply hafter (by omega)
      simp only [Function.iterate_zero, id_eq]
      unfold escape_guard
      refine ⟨show (0 : Int) < max_iter by omega, ?_⟩
      norm_num
    rw [hcount]
    refine ⟨by omega, by omega, by omega⟩
  · intro hm
    have h0 : max_iter.toNat = 0 := by omega
    unfold escape_count
    rw [h0]
    rfl

theorem escape_loop_terminates_with_positive_count_witness :
    (1 ≤ escape_count 400 (-2 : ℚ) (1.2 : ℚ) ∧ escape_count 400 (-2 : ℚ) (1.2 : ℚ) ≤ 400 ∧
      escape_count 400 (-2 : ℚ) (1.2 : ℚ) ≠ 0) ∧
    escape_count 0 (-2 : ℚ) (1.2 : ℚ) = 0 :=
  ⟨(escape_loop_terminates_with_positive_count 400 (-2 : ℚ) 1.2 (-2) 1.2).2.1 (by decide),
   (escape_loop_terminates_with_positive_count 0 (-2 : ℚ) 1.2 (-2) 1.2).2.2 (by decide)⟩
